import Mathlib

/-!
Verification of the rspamd DKIM configuration parser
(`rspamd/dkim/config.go`): a shallow embedding of the lexer, the
recursive-descent parser, the typed configuration projections, the
sign-header mini-grammar, and the line-oriented map-file parser, together
with theorems settling the specified properties.

The input stream is embedded as a `List Char`; the Go functions become
pure Lean functions.  Loops of the parser are embedded with an explicit
fuel parameter (initialised to `input length + 1`, which bounds the
number of loop iterations); running out of fuel yields the artificial
error `ConfError.outOfFuel`, which no theorem below ever equates with a
real parse outcome.
-/

deriving instance DecidableEq for Except

namespace DkimConf

/-- Character is in Go's `unicode.IsSpace` set (the Unicode White_Space
property, enumerated explicitly). -/
def isSpace (c : Char) : Bool :=
  c.toNat == 9 || c.toNat == 10 || c.toNat == 11 || c.toNat == 12 || c.toNat == 13 ||
  c.toNat == 32 || c.toNat == 0x85 || c.toNat == 0xA0 || c.toNat == 0x1680 ||
  (0x2000 ≤ c.toNat && c.toNat ≤ 0x200A) || c.toNat == 0x2028 || c.toNat == 0x2029 ||
  c.toNat == 0x202F || c.toNat == 0x205F || c.toNat == 0x3000

/-- Letter (code points of `A`-`Z` and `a`-`z`), as used by the lexer's
identifier rules.  Go uses `unicode.IsLetter`; the model restricts it to
ASCII letters (the universally quantified theorems below about single
characters carry an ASCII hypothesis, and on ASCII the two agree
exactly). -/
def isLetter (c : Char) : Bool :=
  (65 ≤ c.toNat && c.toNat ≤ 90) || (97 ≤ c.toNat && c.toNat ≤ 122)

/-- Digit `0`-`9` (Go `unicode.IsDigit`, restricted to ASCII as for
letters). -/
def isDigit (c : Char) : Bool :=
  48 ≤ c.toNat && c.toNat ≤ 57

/-- Go `isIdentStart`: letter, `_` (95) or `$` (36). -/
def isIdentStart (c : Char) : Bool :=
  isLetter c || c.toNat == 95 || c.toNat == 36

/-- Go `isIdentPart`: letter, digit, `_` (95), `-` (45), `.` (46),
`/` (47) or `$` (36). -/
def isIdentPart (c : Char) : Bool :=
  isLetter c || isDigit c || c.toNat == 95 || c.toNat == 45 || c.toNat == 46 ||
  c.toNat == 47 || c.toNat == 36

/-- ASCII lower-casing of one character (Go `strings.ToLower`, restricted
to ASCII; the boolean literals it is compared against are ASCII). -/
def lowerChar (c : Char) : Char :=
  if 65 ≤ c.toNat && c.toNat ≤ 90 then Char.ofNat (c.toNat + 32) else c

/-- Lower-case a string (Go `strings.ToLower`, ASCII model). -/
def lowerString (s : String) : String :=
  String.mk (s.data.map lowerChar)

/-- Trim Unicode whitespace from both ends of a character list (Go
`strings.TrimSpace`). -/
def trimChars (l : List Char) : List Char :=
  ((l.dropWhile isSpace).reverse.dropWhile isSpace).reverse

/-- Token types of the lexer, mirroring the Go `tokenType` enumeration. -/
inductive TokType where
  | eof
  | ident
  | str
  | lbrace
  | rbrace
  | equal
  | semi
deriving DecidableEq, Repr

/-- A token: type plus recovered text, mirroring the Go `token` struct. -/
structure Token where
  typ : TokType
  val : String
deriving DecidableEq, Repr

/-- Errors of the parser.  Each constructor corresponds to one
`fmt.Errorf` site of the Go source (carrying the same data), plus
`eof` for the raw `io.EOF` value that `readString` propagates, plus the
embedding artefact `outOfFuel`, plus `mapFormat` for the map-file
parser's format error. -/
inductive ConfError where
  | unexpectedChar (c : Char)
  | eof
  | unexpectedToken (t : TokType)
  | expectedToken (want got : TokType)
  | unexpectedTokenInDomainRule (t : TokType)
  | unexpectedTokenInDomainBlock (t : TokType)
  | unexpectedValueToken (t : TokType)
  | invalidBoolean (v : String)
  | parseKey (k : String) (e : ConfError)
  | mapFormat (line : String)
  | outOfFuel
deriving DecidableEq, Repr

/-- Skip whitespace and `#` line comments.  The flag is `true` while
inside a comment (Go: the `skipLine` helper together with the
whitespace/comment dispatch at the top of `lexer.next`). -/
def stripWs : Bool → List Char → List Char
  | _, [] => []
  | true, c :: t => if c = '\n' then stripWs false t else stripWs true t
  | false, c :: t =>
    if c = '#' then stripWs true t
    else if isSpace c then stripWs false t
    else c :: t

/-- Prepend one copied character to the result of reading the rest of a
quoted string (the Go `strings.Builder` write, seen from the return
side); an error outcome is passed through unchanged. -/
def consOut (x : Char) (p : (Except ConfError (List Char)) × List Char) :
    (Except ConfError (List Char)) × List Char :=
  match p with
  | (.ok s, r) => (.ok (x :: s), r)
  | (.error er, r) => (.error er, r)

/-- Go `lexer.readString`: after the opening quote has been consumed,
copy characters verbatim until an unescaped closing quote; a backslash
copies the following character literally; end of stream is the `io.EOF`
error.  Returns the token text and the remaining stream (the remaining
stream is also returned on error, since a caller may discard the error
and continue, mirroring the mutable reader). -/
def readString : List Char → (Except ConfError (List Char)) × List Char
  | [] => (.error .eof, [])
  | c :: t =>
    if c = '"' then (.ok [], t)
    else if c = '\\' then
      match t with
      | [] => (.error .eof, [])
      | e :: t' => consOut e (readString t')
    else consOut c (readString t)

/-- Go `lexer.next` without the peek slot: skip whitespace and comments,
then produce one token (or a lexical error) and the remaining stream. -/
def nextRaw (l : List Char) : (Except ConfError Token) × List Char :=
  match stripWs false l with
  | [] => (.ok ⟨.eof, ""⟩, [])
  | c :: t =>
    if c = '{' then (.ok ⟨.lbrace, ""⟩, t)
    else if c = '}' then (.ok ⟨.rbrace, ""⟩, t)
    else if c = '=' then (.ok ⟨.equal, ""⟩, t)
    else if c = ';' then (.ok ⟨.semi, ""⟩, t)
    else if c = '"' then
      match readString t with
      | (.ok s, r) => (.ok ⟨.str, String.mk s⟩, r)
      | (.error e, r) => (.error e, r)
    else if isIdentStart c then
      (.ok ⟨.ident, String.mk (c :: t.takeWhile isIdentPart)⟩, t.dropWhile isIdentPart)
    else (.error (.unexpectedChar c), t)

/-- Lexer state: remaining input plus the single-token pushback slot
(Go `lexer.peek`). -/
structure LexState where
  input : List Char
  back : Option Token
deriving DecidableEq, Repr

/-- Go `lexer.next`: take the pushed-back token if present, otherwise
lex one token from the stream.  The post-call state is returned even on
error (Go mutates the reader in place and `tryConsume` callers discard
the error). -/
def next (st : LexState) : (Except ConfError Token) × LexState :=
  match st.back with
  | some t => (.ok t, ⟨st.input, none⟩)
  | none =>
    match nextRaw st.input with
    | (.ok t, rest) => (.ok t, ⟨rest, none⟩)
    | (.error e, rest) => (.error e, ⟨rest, none⟩)

/-- Go `lexer.unread`. -/
def unread (st : LexState) (t : Token) : LexState :=
  ⟨st.input, some t⟩

/-- Go `expect`. -/
def expect (st : LexState) (want : TokType) : Except ConfError LexState :=
  match next st with
  | (.error e, _) => .error e
  | (.ok t, st') =>
    if t.typ = want then .ok st' else .error (.expectedToken want t.typ)

/-- Go `parseValue`. -/
def parseValue (st : LexState) : Except ConfError (String × LexState) :=
  match next st with
  | (.error e, _) => .error e
  | (.ok t, st') =>
    if t.typ = .ident ∨ t.typ = .str then .ok (t.val, st')
    else .error (.unexpectedValueToken t.typ)

/-- Go `tryConsume`: peek one token; consume it when it has the wanted
type, otherwise push it back.  As in the source both the flag and the
error are returned alongside the (always advanced) lexer state; all
call sites discard the flag and the error. -/
def tryConsume (st : LexState) (want : TokType) : (Except ConfError Bool) × LexState :=
  match next st with
  | (.error e, st') => (.error e, st')
  | (.ok t, st') =>
    if t.typ = want then (.ok true, st') else (.ok false, unread st' t)

/-- Insert into an association list, with Go-map semantics: an existing
binding of the key is overwritten in place, a new key is appended. -/
def insertA {α : Type} : List (String × α) → String → α → List (String × α)
  | [], k, v => [(k, v)]
  | (k', v') :: rest, k, v =>
    if k' = k then (k, v) :: rest else (k', v') :: insertA rest k v

/-- Look a key up in an association list (Go map read). -/
def lookupA {α : Type} : List (String × α) → String → Option α
  | [], _ => none
  | (k', v') :: rest, k => if k' = k then some v' else lookupA rest k

/-- The generic parser's flat top-level result (Go `map[string]string`). -/
abbrev AssignMap := List (String × String)

/-- One domain block's own assignments. -/
abbrev RuleMap := List (String × String)

/-- The generic parser's nested result (Go `map[string]map[string]string`). -/
abbrev DomainMap := List (String × RuleMap)

/-- The inner loop of Go `parseDomainBlock` that fills one rule map:
assignments until the closing `}` (whose optional trailing `;` is
probed, the probe's error being discarded as in the source). -/
def parseRule : Nat → LexState → RuleMap → Except ConfError (RuleMap × LexState)
  | 0, _, _ => .error .outOfFuel
  | fuel + 1, st, rule =>
    match next st with
    | (.error e, _) => .error e
    | (.ok t, st1) =>
      if t.typ = .rbrace then
        .ok (rule, (tryConsume st1 .semi).2)
      else if t.typ = .ident then
        match expect st1 .equal with
        | .error e => .error e
        | .ok st2 =>
          match parseValue st2 with
          | .error e => .error e
          | .ok (v, st3) =>
            parseRule fuel (tryConsume st3 .semi).2 (insertA rule t.val v)
      else .error (.unexpectedTokenInDomainRule t.typ)

/-- The outer loop of Go `parseDomainBlock`: named entries (identifier
or quoted-string label, then a braced rule) until the closing `}`. -/
def parseDomainEntries : Nat → LexState → DomainMap → Except ConfError (DomainMap × LexState)
  | 0, _, _ => .error .outOfFuel
  | fuel + 1, st, domains =>
    match next st with
    | (.error e, _) => .error e
    | (.ok t, st1) =>
      if t.typ = .rbrace then
        .ok (domains, (tryConsume st1 .semi).2)
      else if t.typ = .ident ∨ t.typ = .str then
        match expect st1 .lbrace with
        | .error e => .error e
        | .ok st2 =>
          match parseRule fuel st2 [] with
          | .error e => .error e
          | .ok (rule, st3) => parseDomainEntries fuel st3 (insertA domains t.val rule)
      else .error (.unexpectedTokenInDomainBlock t.typ)

/-- Go `parseDomainBlock`: the opening `{` followed by the entries. -/
def parseDomainBlock (fuel : Nat) (st : LexState) (domains : DomainMap) :
    Except ConfError (DomainMap × LexState) :=
  match expect st .lbrace with
  | .error e => .error e
  | .ok st1 => parseDomainEntries fuel st1 domains

/-- The main loop of Go `parseRspamdConfig`: top-level assignments and
`domain` blocks until end of input. -/
def parseRspamdLoop : Nat → LexState → AssignMap → DomainMap →
    Except ConfError (AssignMap × DomainMap)
  | 0, _, _, _ => .error .outOfFuel
  | fuel + 1, st, asg, dom =>
    match next st with
    | (.error e, _) => .error e
    | (.ok t, st1) =>
      if t.typ = .eof then .ok (asg, dom)
      else if t.typ = .ident then
        if t.val = "domain" then
          match parseDomainBlock fuel st1 dom with
          | .error e => .error e
          | .ok (dom', st2) => parseRspamdLoop fuel st2 asg dom'
        else
          match expect st1 .equal with
          | .error e => .error e
          | .ok st2 =>
            match parseValue st2 with
            | .error e => .error e
            | .ok (v, st3) =>
              parseRspamdLoop fuel (tryConsume st3 .semi).2 (insertA asg t.val v) dom
      else .error (.unexpectedToken t.typ)

/-- Go `parseRspamdConfig` on a whole input string.  The fuel
`length + 1` bounds the loop iteration count of any run (every
iteration of any of the loops consumes at least one character). -/
def parseRspamdConfig (s : String) : Except ConfError (AssignMap × DomainMap) :=
  parseRspamdLoop (s.length + 1) ⟨s.data, none⟩ [] []

/-- Go `parseBool`: case-insensitive `true` / `false`, anything else is
the `invalid boolean` error carrying the raw value. -/
def parseBool (v : String) : Except ConfError Bool :=
  if lowerString v = "true" then .ok true
  else if lowerString v = "false" then .ok false
  else .error (.invalidBoolean v)

/-- Go `SignHeader`. -/
structure SignHeader where
  Name : String
  Oversigned : Bool
  OptionalOversigned : Bool
deriving DecidableEq, Repr

/-- Go `DKIMConf`. -/
structure DKIMConf where
  Enabled : Option Bool
  SignHeaders : String
  SignHeaderList : List SignHeader
deriving DecidableEq, Repr

/-- Go `DomainRule`. -/
structure DomainRule where
  Selector : String
  Path : String
deriving DecidableEq, Repr

/-- Go `DKIMSigningConf`. -/
structure DKIMSigningConf where
  Enabled : Option Bool
  AllowUsernameMismatch : Option Bool
  SignAuthenticated : Option Bool
  SignLocal : Option Bool
  SignInbound : Option Bool
  UseDomain : String
  UseDomainSignLocal : String
  UseDomainSignNetworks : String
  AllowHdrFromMismatch : Option Bool
  UseESLD : Option Bool
  TryFallback : Option Bool
  Path : String
  Selector : String
  PathMap : String
  SelectorMap : String
  Domain : List (String × DomainRule)
deriving DecidableEq, Repr

/-- Split a character list on a single-character separator (Go
`strings.Split` with a one-character separator). -/
def splitSep (sep : Char) : List Char → List (List Char)
  | [] => [[]]
  | c :: t =>
    if c = sep then [] :: splitSep sep t
    else
      match splitSep sep t with
      | [] => [[c]]
      | h :: r => (c :: h) :: r

/-- One iteration of the Go `parseSignHeaders` loop: trim the segment,
drop it if empty, strip a leading `(o)` or `(x)` marker
(`strings.HasPrefix` then slicing off three characters), re-trim, drop
if now empty, otherwise build the entry. -/
def mkEntry (part : List Char) : Option SignHeader :=
  let h := trimChars part
  if h = [] then none
  else if h.take 3 = ['(', 'o', ')'] then
    let n := trimChars (h.drop 3)
    if n = [] then none else some ⟨String.mk n, true, false⟩
  else if h.take 3 = ['(', 'x', ')'] then
    let n := trimChars (h.drop 3)
    if n = [] then none else some ⟨String.mk n, false, true⟩
  else some ⟨String.mk h, false, false⟩

/-- Go `parseSignHeaders`. -/
def parseSignHeaders (raw : String) : List SignHeader :=
  (splitSep ':' raw.data).filterMap mkEntry

/-- The projection of Go `ParseDKIMConf` after the generic parse. -/
def mkDKIMConf (asg : AssignMap) : Except ConfError DKIMConf :=
  let sh := (lookupA asg "sign_headers").getD ""
  let base : DKIMConf := ⟨none, sh, if sh ≠ "" then parseSignHeaders sh else []⟩
  match lookupA asg "enabled" with
  | none => .ok base
  | some v =>
    match parseBool v with
    | .ok b => .ok { base with Enabled := some b }
    | .error e => .error (.parseKey "enabled" e)

/-- Go `ParseDKIMConf`. -/
def ParseDKIMConf (s : String) : Except ConfError DKIMConf :=
  match parseRspamdConfig s with
  | .error e => .error e
  | .ok (asg, _) => mkDKIMConf asg

/-- The Go `setBool` closure of `ParseDKIMSigningConf`: absent key gives
`none`, a present key goes through `parseBool`, whose failure is wrapped
with the key name. -/
def setBoolField (asg : AssignMap) (k : String) : Except ConfError (Option Bool) :=
  match lookupA asg k with
  | none => .ok none
  | some v =>
    match parseBool v with
    | .ok b => .ok (some b)
    | .error e => .error (.parseKey k e)

/-- The projection of one generic domain block into a `DomainRule`
(Go: the `for key, rule := range domain` loop of `ParseDKIMSigningConf`;
unrecognised keys are dropped, missing keys default to `""`). -/
def projectDomain (dom : DomainMap) : List (String × DomainRule) :=
  dom.map (fun p => (p.1, ⟨(lookupA p.2 "selector").getD "", (lookupA p.2 "path").getD ""⟩))

/-- The projection of Go `ParseDKIMSigningConf` after the generic parse:
string fields default to `""`, the eight optional booleans go through
`setBoolField` in source order (first failure aborts). -/
def mkSigningConf (asg : AssignMap) (dom : DomainMap) : Except ConfError DKIMSigningConf :=
  match setBoolField asg "enabled" with
  | .error e => .error e
  | .ok en =>
    match setBoolField asg "allow_username_mismatch" with
    | .error e => .error e
    | .ok aum =>
      match setBoolField asg "sign_authenticated" with
      | .error e => .error e
      | .ok sa =>
        match setBoolField asg "sign_local" with
        | .error e => .error e
        | .ok sl =>
          match setBoolField asg "sign_inbound" with
          | .error e => .error e
          | .ok si =>
            match setBoolField asg "allow_hdrfrom_mismatch" with
            | .error e => .error e
            | .ok ahm =>
              match setBoolField asg "use_esld" with
              | .error e => .error e
              | .ok ue =>
                match setBoolField asg "try_fallback" with
                | .error e => .error e
                | .ok tf =>
                  .ok { Enabled := en
                        AllowUsernameMismatch := aum
                        SignAuthenticated := sa
                        SignLocal := sl
                        SignInbound := si
                        UseDomain := (lookupA asg "use_domain").getD ""
                        UseDomainSignLocal := (lookupA asg "use_domain_sign_local").getD ""
                        UseDomainSignNetworks := (lookupA asg "use_domain_sign_networks").getD ""
                        AllowHdrFromMismatch := ahm
                        UseESLD := ue
                        TryFallback := tf
                        Path := (lookupA asg "path").getD ""
                        Selector := (lookupA asg "selector").getD ""
                        PathMap := (lookupA asg "path_map").getD ""
                        SelectorMap := (lookupA asg "selector_map").getD ""
                        Domain := projectDomain dom }

/-- Go `ParseDKIMSigningConf`. -/
def ParseDKIMSigningConf (s : String) : Except ConfError DKIMSigningConf :=
  match parseRspamdConfig s with
  | .error e => .error e
  | .ok (asg, dom) => mkSigningConf asg dom

/-- Modelled from the spec: the map-file parser's ability to skip a
line.  The functions `ParseDKIMSelectorsMap`, `ParseDKIMPathsMap` and
`ParseSignedDomainsMap` are exercised by the repository's tests but
their defining source file is not under `src/`; these definitions
follow the spec (a line whose first non-whitespace character is `#`,
or that is empty or whitespace-only, is skipped). -/
def lineSkippable (line : List Char) : Bool :=
  match line.dropWhile isSpace with
  | [] => true
  | c :: _ => c = '#'

/-- Modelled from the spec: the key field of a map-file data line — the
text up to the first run of whitespace. -/
def lineKey (line : List Char) : List Char :=
  (line.dropWhile isSpace).takeWhile (fun c => !isSpace c)

/-- Modelled from the spec: the value field of a map-file data line —
the text after the first run of whitespace, trimmed. -/
def lineValue (line : List Char) : List Char :=
  trimChars ((line.dropWhile isSpace).dropWhile (fun c => !isSpace c))

/-- Modelled from the spec: process one map-file line — skip a comment
or blank line, split any other line on the first run of whitespace
into exactly two non-empty fields, and fail with a format error naming
the offending line otherwise. -/
def processMapLine (m : AssignMap) (line : List Char) : Except ConfError AssignMap :=
  if lineSkippable line then .ok m
  else if lineValue line = [] then .error (.mapFormat (String.mk line))
  else .ok (insertA m (String.mk (lineKey line)) (String.mk (lineValue line)))

/-- Modelled from the spec: the line loop of the map-file parser (the
first error aborts; later duplicate keys overwrite earlier ones through
`insertA`). -/
def parseMapLines : AssignMap → List (List Char) → Except ConfError AssignMap
  | m, [] => .ok m
  | m, l :: rest =>
    match processMapLine m l with
    | .error e => .error e
    | .ok m' => parseMapLines m' rest

/-- Modelled from the spec: the shared line-oriented map-file parsing
routine used by all three map-file operations. -/
def parseMapFile (s : String) : Except ConfError AssignMap :=
  parseMapLines [] (splitSep '\n' s.data)

/-- Modelled from the spec: Parse Selector Map. -/
def ParseDKIMSelectorsMap (s : String) : Except ConfError AssignMap :=
  parseMapFile s

/-- Modelled from the spec: Parse Path Map. -/
def ParseDKIMPathsMap (s : String) : Except ConfError AssignMap :=
  parseMapFile s

/-- Modelled from the spec: Parse Signed-Domains Map. -/
def ParseSignedDomainsMap (s : String) : Except ConfError AssignMap :=
  parseMapFile s

/-! ## Helper lemmas -/

theorem mkEntry_cases (part : List Char) (e : SignHeader) (h : mkEntry part = some e) :
    (e.Oversigned = true ∧ e.OptionalOversigned = false ∧
      (trimChars part).take 3 = ['(', 'o', ')']) ∨
    (e.Oversigned = false ∧ e.OptionalOversigned = true ∧
      (trimChars part).take 3 ≠ ['(', 'o', ')'] ∧ (trimChars part).take 3 = ['(', 'x', ')']) ∨
    (e.Oversigned = false ∧ e.OptionalOversigned = false ∧
      (trimChars part).take 3 ≠ ['(', 'o', ')'] ∧ (trimChars part).take 3 ≠ ['(', 'x', ')']) := by
  simp only [mkEntry] at h
  split_ifs at h with h1 h2 h3 h4 h5 <;>
    first
      | exact Option.noConfusion h
      | (obtain rfl : _ = e := Option.some.inj h; simp_all)

/-! ## C4: the sign-header mini-grammar on the specified example -/

/-- C4: `parseSignHeaders "(o)from:(x)date:plain"` returns exactly the
three entries in order.  The function is total by construction (a pure
function from strings to lists of entries, evaluated segment by
segment), and any segment whose trimmed text is empty yields no entry. -/
theorem c4_sign_headers_example :
    parseSignHeaders "(o)from:(x)date:plain" =
      [⟨"from", true, false⟩, ⟨"date", false, true⟩, ⟨"plain", false, false⟩] ∧
    (∀ raw : String, parseSignHeaders raw = (splitSep ':' raw.data).filterMap mkEntry) ∧
    (∀ part : List Char, trimChars part = [] → mkEntry part = none) := by
  refine ⟨by decide, fun raw => rfl, fun part h => ?_⟩
  simp [mkEntry, h]

/-- C4 witness: a whitespace-only segment produces no entry. -/
theorem c4_sign_headers_example_witness :
    trimChars "   ".data = [] ∧ mkEntry "   ".data = none :=
  ⟨by decide, c4_sign_headers_example.2.2 _ (by decide)⟩

/-! ## C8: the two oversign flags are never both set -/

/-- C8: no entry produced by `parseSignHeaders` carries both oversign
flags; a trimmed segment starting with the marker `(o)` yields a
mandatory-oversigned entry, one starting with `(x)` an
optional-oversigned entry, and any other segment an entry with both
flags false. -/
theorem c8_oversign_flags_exclusive :
    (∀ (raw : String) (e : SignHeader), e ∈ parseSignHeaders raw →
      ¬(e.Oversigned = true ∧ e.OptionalOversigned = true)) ∧
    (∀ (part : List Char) (e : SignHeader), mkEntry part = some e →
      ((trimChars part).take 3 = ['(', 'o', ')'] →
        e.Oversigned = true ∧ e.OptionalOversigned = false) ∧
      ((trimChars part).take 3 ≠ ['(', 'o', ')'] → (trimChars part).take 3 = ['(', 'x', ')'] →
        e.Oversigned = false ∧ e.OptionalOversigned = true) ∧
      ((trimChars part).take 3 ≠ ['(', 'o', ')'] → (trimChars part).take 3 ≠ ['(', 'x', ')'] →
        e.Oversigned = false ∧ e.OptionalOversigned = false)) := by
  constructor
  · intro raw e he hboth
    obtain ⟨part, -, hpart⟩ := List.mem_filterMap.mp he
    rcases mkEntry_cases part e hpart with ⟨h1, h2, -⟩ | ⟨h1, h2, -⟩ | ⟨h1, h2, -⟩ <;>
      simp_all
  · intro part e hpart
    rcases mkEntry_cases part e hpart with ⟨h1, h2, h3⟩ | ⟨h1, h2, h3, h4⟩ | ⟨h1, h2, h3, h4⟩ <;>
      refine ⟨fun ho => ?_, fun hno hx => ?_, fun hno hnx => ?_⟩ <;> simp_all

/-- C8 witness: the flag characterisation evaluated on the segment
`(x) date `. -/
theorem c8_oversign_flags_exclusive_witness :
    ¬((⟨"date", false, true⟩ : SignHeader).Oversigned = true ∧
      (⟨"date", false, true⟩ : SignHeader).OptionalOversigned = true) :=
  c8_oversign_flags_exclusive.1 "(x) date " ⟨"date", false, true⟩ (by decide)

theorem stripWs_all_space (l : List Char) (h : ∀ c ∈ l, isSpace c = true) :
    stripWs false l = [] := by
  induction l with
  | nil => rfl
  | cons c t ih =>
    have hc : isSpace c = true := h c (List.mem_cons_self c t)
    have hch : ¬c = '#' := by rintro rfl; exact absurd hc (by decide)
    simp only [stripWs, if_neg hch, if_pos hc]
    exact ih fun x hx => h x (List.mem_cons_of_mem c hx)

theorem nextRaw_all_space (l : List Char) (h : ∀ c ∈ l, isSpace c = true) :
    nextRaw l = (.ok ⟨.eof, ""⟩, []) := by
  unfold nextRaw
  rw [stripWs_all_space l h]

/-! ## C9: empty or whitespace-only input -/

/-- C9: on an empty or whitespace-only input both parse entry points
succeed; the module config has `Enabled` unset, empty `SignHeaders` and
an empty `SignHeaderList`, and the signing config has every optional
boolean unset, every string field empty and an empty domain map. -/
theorem c9_whitespace_input (s : String) (h : ∀ c ∈ s.data, isSpace c = true) :
    ParseDKIMConf s = .ok ⟨none, "", []⟩ ∧
    ParseDKIMSigningConf s =
      .ok ⟨none, none, none, none, none, "", "", "", none, none, none, "", "", "", "", []⟩ := by
  have hp : parseRspamdConfig s = .ok ([], []) := by
    unfold parseRspamdConfig
    simp [parseRspamdLoop, next, nextRaw_all_space s.data h]
  constructor
  · simp [ParseDKIMConf, hp]; rfl
  · simp [ParseDKIMSigningConf, hp]; rfl

/-- C9 witness: the two entry points on the whitespace-only input of a
space, a tab and a newline. -/
theorem c9_whitespace_input_witness :
    ParseDKIMConf " \t\n" = .ok ⟨none, "", []⟩ ∧
    ParseDKIMSigningConf " \t\n" =
      .ok ⟨none, none, none, none, none, "", "", "", none, none, none, "", "", "", "", []⟩ :=
  c9_whitespace_input " \t\n" (by decide)

/-! ## C5: domain blocks and full replacement of duplicate labels -/

/-- C5: parsing one domain block yields the expected rule at the generic
level and after projection; a later block with the same label fully
replaces the earlier one, so a key absent from the later block (here
`path`) reverts to the empty string. -/
theorem c5_domain_block_replacement :
    parseRspamdConfig "domain \x7b \"a.com\" \x7b selector = s1; path = \"/p\" \x7d \x7d" =
      .ok ([], [("a.com", [("selector", "s1"), ("path", "/p")])]) ∧
    (ParseDKIMSigningConf "domain \x7b \"a.com\" \x7b selector = s1; path = \"/p\" \x7d \x7d").map
        (fun c => c.Domain) = .ok [("a.com", ⟨"s1", "/p"⟩)] ∧
    parseRspamdConfig
        ("domain \x7b \"a.com\" \x7b selector = s1; path = \"/p\" \x7d \x7d\n" ++
          "domain \x7b \"a.com\" \x7b selector = s2 \x7d \x7d") =
      .ok ([], [("a.com", [("selector", "s2")])]) ∧
    (ParseDKIMSigningConf
        ("domain \x7b \"a.com\" \x7b selector = s1; path = \"/p\" \x7d \x7d\n" ++
          "domain \x7b \"a.com\" \x7b selector = s2 \x7d \x7d")).map
        (fun c => c.Domain) = .ok [("a.com", ⟨"s2", ""⟩)] := by
  refine ⟨by decide, by decide, by decide, by decide⟩

theorem stripWs_cons_keep (c : Char) (l : List Char) (hs : isSpace c = false)
    (hh : c ≠ '#') : stripWs false (c :: l) = c :: l := by
  simp only [stripWs, if_neg hh, hs]
  rfl

theorem stripWs_cons_space (c : Char) (l : List Char) (hs : isSpace c = true)
    (hh : c ≠ '#') : stripWs false (c :: l) = stripWs false l := by
  simp only [stripWs, if_neg hh, hs]
  rfl

theorem nextRaw_nil : nextRaw [] = (.ok ⟨.eof, ""⟩, []) := rfl

theorem nextRaw_space (c : Char) (l : List Char) (hs : isSpace c = true)
    (hh : c ≠ '#') : nextRaw (c :: l) = nextRaw l := by
  unfold nextRaw
  rw [stripWs_cons_space c l hs hh]

theorem nextRaw_lbrace (l : List Char) : nextRaw ('{' :: l) = (.ok ⟨.lbrace, ""⟩, l) := by
  unfold nextRaw
  rw [stripWs_cons_keep '{' l (by decide) (by decide)]
  simp

theorem nextRaw_rbrace (l : List Char) : nextRaw ('}' :: l) = (.ok ⟨.rbrace, ""⟩, l) := by
  unfold nextRaw
  rw [stripWs_cons_keep '}' l (by decide) (by decide)]
  simp

theorem nextRaw_equal (l : List Char) : nextRaw ('=' :: l) = (.ok ⟨.equal, ""⟩, l) := by
  unfold nextRaw
  rw [stripWs_cons_keep '=' l (by decide) (by decide)]
  simp

theorem nextRaw_semi (l : List Char) : nextRaw (';' :: l) = (.ok ⟨.semi, ""⟩, l) := by
  unfold nextRaw
  rw [stripWs_cons_keep ';' l (by decide) (by decide)]
  simp

theorem nextRaw_quote (l : List Char) :
    nextRaw ('"' :: l) =
      match readString l with
      | (.ok s, r) => (.ok ⟨.str, String.mk s⟩, r)
      | (.error e, r) => (.error e, r) := by
  unfold nextRaw
  rw [stripWs_cons_keep '"' l (by decide) (by decide)]
  simp

theorem identStart_class (c : Char) (h : isIdentStart c = true) :
    isSpace c = false ∧ c ≠ '#' ∧ c ≠ '{' ∧ c ≠ '}' ∧ c ≠ '=' ∧ c ≠ ';' ∧ c ≠ '"' := by
  refine ⟨?_, ?_, ?_, ?_, ?_, ?_, ?_⟩
  · simp only [isIdentStart, isLetter, Bool.or_eq_true, Bool.and_eq_true, beq_iff_eq,
      decide_eq_true_eq] at h
    simp only [isSpace, Bool.or_eq_false_iff, Bool.and_eq_false_iff, beq_eq_false_iff_ne,
      ne_eq, decide_eq_false_iff_not, not_le]
    omega
  all_goals (rintro rfl; exact absurd h (by decide))

theorem takeWhile_append_of_all (p : Char → Bool) (l r : List Char)
    (h : ∀ x ∈ l, p x = true) : (l ++ r).takeWhile p = l ++ r.takeWhile p := by
  induction l with
  | nil => rfl
  | cons c t ih =>
    simp only [List.cons_append, List.takeWhile_cons, h c (List.mem_cons_self c t),
      if_true]
    rw [ih fun x hx => h x (List.mem_cons_of_mem c hx)]

theorem dropWhile_append_of_all (p : Char → Bool) (l r : List Char)
    (h : ∀ x ∈ l, p x = true) : (l ++ r).dropWhile p = r.dropWhile p := by
  induction l with
  | nil => rfl
  | cons c t ih =>
    simp only [List.cons_append, List.dropWhile_cons, h c (List.mem_cons_self c t)]
    exact ih fun x hx => h x (List.mem_cons_of_mem c hx)

theorem takeWhile_eq_nil_of_head (p : Char → Bool) (r : List Char)
    (h : ∀ d ∈ r.take 1, p d = false) : r.takeWhile p = [] := by
  cases r with
  | nil => rfl
  | cons d t => simp [List.takeWhile_cons, h d (by simp)]

theorem dropWhile_eq_self_of_head (p : Char → Bool) (r : List Char)
    (h : ∀ d ∈ r.take 1, p d = false) : r.dropWhile p = r := by
  cases r with
  | nil => rfl
  | cons d t => simp [List.dropWhile_cons, h d (by simp)]

/-- Lexing an identifier: an identifier-start character followed by
identifier-part characters, stopped by the first character that is not
an identifier part. -/
theorem nextRaw_ident (c : Char) (cs rest : List Char) (hc : isIdentStart c = true)
    (hcs : ∀ x ∈ cs, isIdentPart x = true)
    (hrest : ∀ d ∈ rest.take 1, isIdentPart d = false) :
    nextRaw (c :: (cs ++ rest)) = (.ok ⟨.ident, String.mk (c :: cs)⟩, rest) := by
  obtain ⟨hsp, hh, hlb, hrb, heq, hsemi, hq⟩ := identStart_class c hc
  unfold nextRaw
  rw [stripWs_cons_keep c _ hsp hh]
  dsimp only
  rw [if_neg hlb, if_neg hrb, if_neg heq, if_neg hsemi, if_neg hq, if_pos hc,
    takeWhile_append_of_all _ _ _ hcs, takeWhile_eq_nil_of_head _ _ hrest,
    dropWhile_append_of_all _ _ _ hcs, dropWhile_eq_self_of_head _ _ hrest,
    List.append_nil]

/-- Lexing at a character that no token can start: the lexical error
naming the character; the character is consumed. -/
theorem nextRaw_bad (c : Char) (rest : List Char) (hs : isSpace c = false) (hh : c ≠ '#')
    (hq : c ≠ '"') (hlb : c ≠ '{') (hrb : c ≠ '}') (heq : c ≠ '=') (hsemi : c ≠ ';')
    (hid : isIdentStart c = false) :
    nextRaw (c :: rest) = (.error (.unexpectedChar c), rest) := by
  unfold nextRaw
  rw [stripWs_cons_keep c rest hs hh]
  dsimp only
  rw [if_neg hlb, if_neg hrb, if_neg heq, if_neg hsemi, if_neg hq, if_neg (by simp [hid])]

/-! ## C1: lexical errors on unexpected characters

The claim as frozen is false on the code: at the two call sites of
`tryConsume` for an optional trailing semicolon the returned error is
discarded (`_, _ = tryConsume(l, tokenSemicolon)`), so a lexical error
arising exactly at that probe is swallowed, the offending character is
consumed, and the parse continues; `a = b @` therefore parses
successfully instead of failing. -/

/-- C1 counterexample: the input `a = b @` from the claim parses
successfully (the `@` is consumed and dropped by the discarded
semicolon probe), where the claim demands a lexical error. -/
theorem c1_probe_swallows_error_counterexample :
    ParseDKIMConf "a = b @" = .ok ⟨none, "", []⟩ := by decide

/-- C1 amended: an ASCII character that is not whitespace, `#`, `"`,
`{`, `}`, `=`, `;` or an identifier-start character causes the parse to
abort with the lexical error naming it when it occurs where a token is
demanded — shown where a statement is expected (part one) and where an
assignment's value is expected (part two) — but not where the parser
probes for an optional trailing semicolon, where the error is discarded
and the character consumed (see the counterexample). -/
theorem c1_lexical_error_amended :
    (∀ (c : Char) (rest : List Char) (s : String),
      s.data = c :: rest → c.toNat < 128 → isSpace c = false → c ≠ '#' → c ≠ '"' →
      c ≠ '{' → c ≠ '}' → c ≠ '=' → c ≠ ';' → isIdentStart c = false →
      ParseDKIMConf s = .error (.unexpectedChar c) ∧
        ParseDKIMSigningConf s = .error (.unexpectedChar c)) ∧
    (∀ (c : Char) (rest : List Char) (s : String),
      s.data = 'a' :: ' ' :: '=' :: ' ' :: c :: rest → c.toNat < 128 →
      isSpace c = false → c ≠ '#' → c ≠ '"' →
      c ≠ '{' → c ≠ '}' → c ≠ '=' → c ≠ ';' → isIdentStart c = false →
      ParseDKIMConf s = .error (.unexpectedChar c) ∧
        ParseDKIMSigningConf s = .error (.unexpectedChar c)) := by
  constructor
  · intro c rest s hd h128 hs hh hq hlb hrb heq hsemi hid
    have hb := nextRaw_bad c rest hs hh hq hlb hrb heq hsemi hid
    constructor
    · unfold ParseDKIMConf parseRspamdConfig
      rw [hd]
      simp [parseRspamdLoop, next, hb]
    · unfold ParseDKIMSigningConf parseRspamdConfig
      rw [hd]
      simp [parseRspamdLoop, next, hb]
  · intro c rest s hd h128 hs hh hq hlb hrb heq hsemi hid
    have h1 : nextRaw ('a' :: ' ' :: '=' :: ' ' :: c :: rest) =
        (.ok ⟨.ident, "a"⟩, ' ' :: '=' :: ' ' :: c :: rest) := by
      have := nextRaw_ident 'a' [] (' ' :: '=' :: ' ' :: c :: rest) (by decide)
        (by simp) (by intro d hd2; simp at hd2; subst hd2; decide)
      simpa using this
    have h2 : nextRaw (' ' :: '=' :: ' ' :: c :: rest) = (.ok ⟨.equal, ""⟩, ' ' :: c :: rest) := by
      rw [nextRaw_space ' ' _ (by decide) (by decide), nextRaw_equal]
    have h3 : nextRaw (' ' :: c :: rest) = (.error (.unexpectedChar c), rest) := by
      rw [nextRaw_space ' ' _ (by decide) (by decide)]
      exact nextRaw_bad c rest hs hh hq hlb hrb heq hsemi hid
    constructor
    · unfold ParseDKIMConf parseRspamdConfig
      rw [hd]
      simp [parseRspamdLoop, next, expect, parseValue, h1, h2, h3]
    · unfold ParseDKIMSigningConf parseRspamdConfig
      rw [hd]
      simp [parseRspamdLoop, next, expect, parseValue, h1, h2, h3]

/-- C1 witness: the amended theorem evaluated at the character `@`, at
the start of the input and at a value position. -/
theorem c1_lexical_error_amended_witness :
    (ParseDKIMConf "@" = .error (.unexpectedChar '@') ∧
      ParseDKIMSigningConf "@" = .error (.unexpectedChar '@')) ∧
    (ParseDKIMConf "a = @" = .error (.unexpectedChar '@') ∧
      ParseDKIMSigningConf "a = @" = .error (.unexpectedChar '@')) :=
  ⟨c1_lexical_error_amended.1 '@' [] "@" (by decide) (by decide) (by decide) (by decide)
      (by decide) (by decide) (by decide) (by decide) (by decide) (by decide),
    c1_lexical_error_amended.2 '@' [] "a = @" (by decide) (by decide) (by decide) (by decide)
      (by decide) (by decide) (by decide) (by decide) (by decide) (by decide)⟩

theorem readString_quote (t : List Char) : readString ('"' :: t) = (.ok [], t) := by
  conv_lhs => rw [readString.eq_def]
  simp

theorem readString_esc (e : Char) (t : List Char) :
    readString ('\\' :: e :: t) = consOut e (readString t) := by
  conv_lhs => rw [readString.eq_def]
  simp

theorem readString_other (c : Char) (t : List Char) (hq : c ≠ '"') (hb : c ≠ '\\') :
    readString (c :: t) = consOut c (readString t) := by
  conv_lhs => rw [readString.eq_def]
  simp [hq, hb]

theorem readString_no_quote (s : List Char) (h : ∀ c ∈ s, c ≠ '"') :
    readString s = (.error .eof, []) := by
  induction s using readString.induct with
  | case1 => rfl
  | case2 t => exact absurd rfl (h _ (List.mem_cons_self _ _))
  | case3 => rfl
  | case4 e t' hne ih =>
    have h2 := ih fun c hc => h c (by simp [hc])
    rw [readString_esc, h2]
    rfl
  | case5 e t' hq hb ih =>
    have h2 := ih fun c hc => h c (by simp [hc])
    rw [readString_other e t' (h e (List.mem_cons_self _ _)) hb, h2]
    rfl

theorem readString_verbatim (s rest : List Char) (h : ∀ c ∈ s, c ≠ '"' ∧ c ≠ '\\') :
    readString (s ++ '"' :: rest) = (.ok s, rest) := by
  induction s with
  | nil => exact readString_quote rest
  | cons c t ih =>
    obtain ⟨hq, hb⟩ := h c (List.mem_cons_self _ _)
    have h2 := ih fun x hx => h x (List.mem_cons_of_mem c hx)
    rw [List.cons_append, readString_other c _ hq hb, h2]
    rfl

/-! ## C7: quoted-string lexing -/

/-- C7: after an opening quote, characters are copied verbatim up to the
matching unescaped closing quote (first and last conjuncts, via the
lexer); a backslash followed by any character X yields the literal X in
the token text with no escape-sequence interpretation (second
conjunct); a stream that ends before the closing quote makes the string
reader return an error instead of a token (third conjunct). -/
theorem c7_quoted_string_lexing :
    (∀ (s rest : List Char), (∀ c ∈ s, c ≠ '"' ∧ c ≠ '\\') →
      readString (s ++ '"' :: rest) = (.ok s, rest)) ∧
    (∀ (c : Char) (rest out r : List Char), readString rest = (.ok out, r) →
      readString ('\\' :: c :: rest) = (.ok (c :: out), r)) ∧
    (∀ s : List Char, (∀ c ∈ s, c ≠ '"') → readString s = (.error .eof, [])) ∧
    (∀ (s rest : List Char), (∀ c ∈ s, c ≠ '"' ∧ c ≠ '\\') →
      nextRaw ('"' :: (s ++ '"' :: rest)) = (.ok ⟨.str, String.mk s⟩, rest)) := by
  refine ⟨readString_verbatim, ?_, readString_no_quote, ?_⟩
  · intro c rest out r hx
    rw [readString_esc, hx]
    rfl
  · intro s rest h
    rw [nextRaw_quote, readString_verbatim s rest h]

/-- C7 witness: the characterisation evaluated on concrete inputs — the
body `ab`, the escapes backslash-n, backslash-backslash and
backslash-quote (each yielding the literal escaped character, with the
escaped quote not closing the string), and an unterminated body. -/
theorem c7_quoted_string_lexing_witness :
    readString ('a' :: 'b' :: '"' :: 'x' :: []) = (.ok ['a', 'b'], ['x']) ∧
    readString ('\\' :: 'n' :: '"' :: []) = (.ok ['n'], []) ∧
    readString ('\\' :: '\\' :: '"' :: []) = (.ok ['\\'], []) ∧
    readString ('\\' :: '"' :: 'c' :: '"' :: []) = (.ok ['"', 'c'], []) ∧
    readString ('a' :: 'b' :: []) = (.error .eof, []) :=
  ⟨c7_quoted_string_lexing.1 ['a', 'b'] ['x'] (by decide),
    c7_quoted_string_lexing.2.1 'n' ['"'] [] [] rfl,
    c7_quoted_string_lexing.2.1 '\\' ['"'] [] [] rfl,
    c7_quoted_string_lexing.2.1 '"' ['c', '"'] ['c'] [] rfl,
    c7_quoted_string_lexing.2.2.1 ['a', 'b'] (by decide)⟩

theorem dropWhile_head_not_space (l : List Char) (c : Char) (t : List Char)
    (h : l.dropWhile isSpace = c :: t) : isSpace c = false := by
  induction l with
  | nil => cases h
  | cons a l' ih =>
    rw [List.dropWhile_cons] at h
    by_cases ha : isSpace a
    · rw [if_pos (by simp [ha])] at h
      exact ih h
    · rw [if_neg (by simp [ha])] at h
      obtain ⟨rfl, -⟩ := List.cons.injEq .. ▸ h
      simpa using ha

/-! ## C2: the line-oriented map-file parser (spec-modelled) -/

/-- C2: the three map-file operations exist and share the single
line-oriented routine; a comment or blank line is skipped; any other
line is split on the first run of whitespace into exactly two non-empty
fields which are added to the mapping; a line that does not yield two
non-empty fields aborts the call with a format error identifying the
offending line; the first error aborts the remaining lines. -/
theorem c2_map_file_parsing :
    (∀ s : String, ParseDKIMSelectorsMap s = parseMapFile s ∧
      ParseDKIMPathsMap s = parseMapFile s ∧ ParseSignedDomainsMap s = parseMapFile s ∧
      parseMapFile s = parseMapLines [] (splitSep '\n' s.data)) ∧
    (∀ (m : AssignMap) (line : List Char), lineSkippable line = true →
      processMapLine m line = .ok m) ∧
    (∀ (m : AssignMap) (line : List Char), lineSkippable line = false →
      lineValue line ≠ [] →
      lineKey line ≠ [] ∧
      processMapLine m line =
        .ok (insertA m (String.mk (lineKey line)) (String.mk (lineValue line)))) ∧
    (∀ (m : AssignMap) (line : List Char), lineSkippable line = false →
      lineValue line = [] →
      processMapLine m line = .error (.mapFormat (String.mk line))) ∧
    (∀ (m : AssignMap) (line : List Char) (rest : List (List Char)) (e : ConfError),
      processMapLine m line = .error e → parseMapLines m (line :: rest) = .error e) ∧
    (∀ (m m' : AssignMap) (line : List Char) (rest : List (List Char)),
      processMapLine m line = .ok m' → parseMapLines m (line :: rest) = parseMapLines m' rest) := by
  refine ⟨fun s => ⟨rfl, rfl, rfl, rfl⟩, ?_, ?_, ?_, ?_, ?_⟩
  · intro m line h
    simp [processMapLine, h]
  · intro m line h hv
    refine ⟨?_, by simp [processMapLine, h, hv]⟩
    cases hd : line.dropWhile isSpace with
    | nil => rw [lineSkippable, hd] at h; cases h
    | cons c t =>
      have hc := dropWhile_head_not_space line c t hd
      rw [lineKey, hd]
      simp [List.takeWhile_cons, hc]
  · intro m line h hv
    simp [processMapLine, h, hv]
  · intro m line rest e h
    simp [parseMapLines, h]
  · intro m m' line rest h
    simp [parseMapLines, h]

/-- C2 witness: a comment line is skipped, the line `a b` adds the pair,
and the single-field line `a` is a format error. -/
theorem c2_map_file_parsing_witness :
    processMapLine [] ('#' :: ' ' :: 'c' :: []) = .ok [] ∧
    (lineKey ('a' :: ' ' :: 'b' :: []) ≠ [] ∧
      processMapLine [] ('a' :: ' ' :: 'b' :: []) =
        .ok (insertA [] (String.mk (lineKey ('a' :: ' ' :: 'b' :: [])))
          (String.mk (lineValue ('a' :: ' ' :: 'b' :: []))))) ∧
    processMapLine [] ('a' :: []) = .error (.mapFormat (String.mk ('a' :: []))) :=
  ⟨c2_map_file_parsing.2.1 [] ('#' :: ' ' :: 'c' :: []) (by decide),
    c2_map_file_parsing.2.2.1 [] ('a' :: ' ' :: 'b' :: []) (by decide) (by decide),
    c2_map_file_parsing.2.2.2.1 [] ('a' :: []) (by decide) (by decide)⟩

/-! ## C3: optional boolean fields -/

/-- The eight keys that `ParseDKIMSigningConf` coerces to optional
booleans. -/
def signingBoolKey (k : String) : Bool :=
  k == "enabled" || k == "allow_username_mismatch" || k == "sign_authenticated" ||
  k == "sign_local" || k == "sign_inbound" || k == "allow_hdrfrom_mismatch" ||
  k == "use_esld" || k == "try_fallback"

/-- The eight optional-boolean keys paired with the record field each
one populates. -/
def signingBoolFields : List (String × (DKIMSigningConf → Option Bool)) :=
  [("enabled", DKIMSigningConf.Enabled),
   ("allow_username_mismatch", DKIMSigningConf.AllowUsernameMismatch),
   ("sign_authenticated", DKIMSigningConf.SignAuthenticated),
   ("sign_local", DKIMSigningConf.SignLocal),
   ("sign_inbound", DKIMSigningConf.SignInbound),
   ("allow_hdrfrom_mismatch", DKIMSigningConf.AllowHdrFromMismatch),
   ("use_esld", DKIMSigningConf.UseESLD),
   ("try_fallback", DKIMSigningConf.TryFallback)]

/-- What the claim asserts for one optional-boolean key of the signing
configuration: the field is unset exactly when the key never appeared;
a set field comes from a successfully coerced present value; a present
value that is not a boolean literal makes the whole call fail with a
coercion error naming an offending key and its raw value. -/
def BoolFieldOK (s : String) (asg : AssignMap) (k : String)
    (f : DKIMSigningConf → Option Bool) : Prop :=
  (∀ conf, ParseDKIMSigningConf s = .ok conf →
    ((f conf = none ↔ lookupA asg k = none) ∧
     (∀ b, f conf = some b → ∃ v, lookupA asg k = some v ∧ parseBool v = .ok b))) ∧
  (∀ v, lookupA asg k = some v → lowerString v ≠ "true" → lowerString v ≠ "false" →
    ∃ k2 v2, signingBoolKey k2 = true ∧ lookupA asg k2 = some v2 ∧
      parseBool v2 = .error (.invalidBoolean v2) ∧
      ParseDKIMSigningConf s = .error (.parseKey k2 (.invalidBoolean v2)))

theorem parseBool_ok_iff (v : String) (b : Bool) :
    parseBool v = .ok b ↔
      ((lowerString v = "true" ∧ b = true) ∨ (lowerString v = "false" ∧ b = false)) := by
  unfold parseBool
  split_ifs with h1 h2 <;> simp_all

theorem parseBool_bad (v : String) (ht : lowerString v ≠ "true")
    (hf : lowerString v ≠ "false") : parseBool v = .error (.invalidBoolean v) := by
  unfold parseBool
  rw [if_neg ht, if_neg hf]

theorem setBoolField_ok_none_iff (asg : AssignMap) (k : String) :
    setBoolField asg k = .ok none ↔ lookupA asg k = none := by
  unfold setBoolField
  cases h : lookupA asg k with
  | none => simp
  | some v =>
    cases hb : parseBool v
    all_goals simp [hb]

theorem setBoolField_ok_some (asg : AssignMap) (k : String) (b : Bool)
    (h : setBoolField asg k = .ok (some b)) :
    ∃ v, lookupA asg k = some v ∧ parseBool v = .ok b := by
  unfold setBoolField at h
  cases hl : lookupA asg k with
  | none => simp [hl] at h
  | some v =>
    simp only [hl] at h
    cases hb : parseBool v with
    | ok b' =>
      simp only [hb] at h
      obtain rfl : b' = b := by simpa using h
      exact ⟨v, rfl, hb⟩
    | error e => simp [hb] at h

theorem setBoolField_error_inv (asg : AssignMap) (k : String) (er : ConfError)
    (h : setBoolField asg k = .error er) :
    ∃ v, lookupA asg k = some v ∧ parseBool v = .error (.invalidBoolean v) ∧
      er = .parseKey k (.invalidBoolean v) := by
  unfold setBoolField at h
  cases hl : lookupA asg k with
  | none => simp [hl] at h
  | some v =>
    simp only [hl] at h
    cases hb : parseBool v with
    | ok b' => simp [hb] at h
    | error e =>
      simp only [hb] at h
      have he : e = .invalidBoolean v := by
        unfold parseBool at hb
        split_ifs at hb
        simp_all
      obtain rfl : ConfError.parseKey k e = er := by simpa using h
      exact ⟨v, rfl, he ▸ hb, by rw [he]⟩

theorem setBoolField_err_of (asg : AssignMap) (k : String) (v : String)
    (hv : lookupA asg k = some v) (hb : parseBool v = .error (.invalidBoolean v)) :
    setBoolField asg k = .error (.parseKey k (.invalidBoolean v)) := by
  unfold setBoolField
  simp [hv, hb]

theorem mkSigningConf_ok_inv (asg : AssignMap) (dom : DomainMap) (conf : DKIMSigningConf)
    (h : mkSigningConf asg dom = .ok conf) :
    setBoolField asg "enabled" = .ok conf.Enabled ∧
    setBoolField asg "allow_username_mismatch" = .ok conf.AllowUsernameMismatch ∧
    setBoolField asg "sign_authenticated" = .ok conf.SignAuthenticated ∧
    setBoolField asg "sign_local" = .ok conf.SignLocal ∧
    setBoolField asg "sign_inbound" = .ok conf.SignInbound ∧
    setBoolField asg "allow_hdrfrom_mismatch" = .ok conf.AllowHdrFromMismatch ∧
    setBoolField asg "use_esld" = .ok conf.UseESLD ∧
    setBoolField asg "try_fallback" = .ok conf.TryFallback := by
  unfold mkSigningConf at h
  cases h1 : setBoolField asg "enabled" with
  | error e => simp [h1] at h
  | ok x1 =>
  simp only [h1] at h
  cases h2 : setBoolField asg "allow_username_mismatch" with
  | error e => simp [h2] at h
  | ok x2 =>
  simp only [h2] at h
  cases h3 : setBoolField asg "sign_authenticated" with
  | error e => simp [h3] at h
  | ok x3 =>
  simp only [h3] at h
  cases h4 : setBoolField asg "sign_local" with
  | error e => simp [h4] at h
  | ok x4 =>
  simp only [h4] at h
  cases h5 : setBoolField asg "sign_inbound" with
  | error e => simp [h5] at h
  | ok x5 =>
  simp only [h5] at h
  cases h6 : setBoolField asg "allow_hdrfrom_mismatch" with
  | error e => simp [h6] at h
  | ok x6 =>
  simp only [h6] at h
  cases h7 : setBoolField asg "use_esld" with
  | error e => simp [h7] at h
  | ok x7 =>
  simp only [h7] at h
  cases h8 : setBoolField asg "try_fallback" with
  | error e => simp [h8] at h
  | ok x8 =>
  simp only [h8] at h
  have hc := Except.ok.inj h
  subst hc
  exact ⟨rfl, rfl, rfl, rfl, rfl, rfl, rfl, rfl⟩

theorem mkSigningConf_err (asg : AssignMap) (dom : DomainMap) (k v : String)
    (hk : signingBoolKey k = true) (hv : lookupA asg k = some v)
    (hbad : parseBool v = .error (.invalidBoolean v)) :
    ∃ k2 v2, signingBoolKey k2 = true ∧ lookupA asg k2 = some v2 ∧
      parseBool v2 = .error (.invalidBoolean v2) ∧
      mkSigningConf asg dom = .error (.parseKey k2 (.invalidBoolean v2)) := by
  have step : ∀ k1 : String, signingBoolKey k1 = true →
      ∀ er, setBoolField asg k1 = .error er →
      ∃ k2 v2, signingBoolKey k2 = true ∧ lookupA asg k2 = some v2 ∧
        parseBool v2 = .error (.invalidBoolean v2) ∧
        er = .parseKey k2 (.invalidBoolean v2) := by
    intro k1 hk1 er her
    obtain ⟨v2, hv2, hb2, rfl⟩ := setBoolField_error_inv asg k1 er her
    exact ⟨k1, v2, hk1, hv2, hb2, rfl⟩
  unfold mkSigningConf
  cases h1 : setBoolField asg "enabled" with
  | error e =>
    obtain ⟨k2, v2, p1, p2, p3, rfl⟩ := step "enabled" (by decide) e h1
    exact ⟨k2, v2, p1, p2, p3, rfl⟩
  | ok x1 =>
  cases h2 : setBoolField asg "allow_username_mismatch" with
  | error e =>
    obtain ⟨k2, v2, p1, p2, p3, rfl⟩ := step "allow_username_mismatch" (by decide) e h2
    exact ⟨k2, v2, p1, p2, p3, rfl⟩
  | ok x2 =>
  cases h3 : setBoolField asg "sign_authenticated" with
  | error e =>
    obtain ⟨k2, v2, p1, p2, p3, rfl⟩ := step "sign_authenticated" (by decide) e h3
    exact ⟨k2, v2, p1, p2, p3, rfl⟩
  | ok x3 =>
  cases h4 : setBoolField asg "sign_local" with
  | error e =>
    obtain ⟨k2, v2, p1, p2, p3, rfl⟩ := step "sign_local" (by decide) e h4
    exact ⟨k2, v2, p1, p2, p3, rfl⟩
  | ok x4 =>
  cases h5 : setBoolField asg "sign_inbound" with
  | error e =>
    obtain ⟨k2, v2, p1, p2, p3, rfl⟩ := step "sign_inbound" (by decide) e h5
    exact ⟨k2, v2, p1, p2, p3, rfl⟩
  | ok x5 =>
  cases h6 : setBoolField asg "allow_hdrfrom_mismatch" with
  | error e =>
    obtain ⟨k2, v2, p1, p2, p3, rfl⟩ := step "allow_hdrfrom_mismatch" (by decide) e h6
    exact ⟨k2, v2, p1, p2, p3, rfl⟩
  | ok x6 =>
  cases h7 : setBoolField asg "use_esld" with
  | error e =>
    obtain ⟨k2, v2, p1, p2, p3, rfl⟩ := step "use_esld" (by decide) e h7
    exact ⟨k2, v2, p1, p2, p3, rfl⟩
  | ok x7 =>
  cases h8 : setBoolField asg "try_fallback" with
  | error e =>
    obtain ⟨k2, v2, p1, p2, p3, rfl⟩ := step "try_fallback" (by decide) e h8
    exact ⟨k2, v2, p1, p2, p3, rfl⟩
  | ok x8 =>
  exfalso
  have hke : setBoolField asg k = .error (.parseKey k (.invalidBoolean v)) :=
    setBoolField_err_of asg k v hv hbad
  simp only [signingBoolKey, Bool.or_eq_true, beq_iff_eq] at hk
  rcases hk with (((((((rfl | rfl) | rfl) | rfl) | rfl) | rfl) | rfl) | rfl) <;> simp_all

theorem mkDKIMConf_enabled_inv (asg : AssignMap) (conf : DKIMConf)
    (h : mkDKIMConf asg = .ok conf) :
    (conf.Enabled = none ↔ lookupA asg "enabled" = none) ∧
    (∀ b, conf.Enabled = some b →
      ∃ v, lookupA asg "enabled" = some v ∧ parseBool v = .ok b) := by
  unfold mkDKIMConf at h
  cases hl : lookupA asg "enabled" with
  | none =>
    simp only [hl] at h
    have hc := Except.ok.inj h
    subst hc
    simp [hl]
  | some v =>
    simp only [hl] at h
    cases hb : parseBool v with
    | ok b' =>
      simp only [hb] at h
      have hc := Except.ok.inj h
      subst hc
      refine ⟨by simp, fun b hb2 => ⟨v, rfl, ?_⟩⟩
      obtain rfl : b' = b := by simpa using hb2
      exact hb
    | error e => simp [hb] at h

theorem mkDKIMConf_enabled_err (asg : AssignMap) (v : String)
    (hv : lookupA asg "enabled" = some v)
    (hb : parseBool v = .error (.invalidBoolean v)) :
    mkDKIMConf asg = .error (.parseKey "enabled" (.invalidBoolean v)) := by
  unfold mkDKIMConf
  simp [hv, hb]

theorem boolFieldOK_of (s : String) (asg : AssignMap) (dom : DomainMap)
    (hsig : ParseDKIMSigningConf s = mkSigningConf asg dom)
    (k : String) (f : DKIMSigningConf → Option Bool) (hk : signingBoolKey k = true)
    (hproj : ∀ conf, mkSigningConf asg dom = .ok conf → setBoolField asg k = .ok (f conf)) :
    BoolFieldOK s asg k f := by
  constructor
  · intro conf hc
    rw [hsig] at hc
    have h := hproj conf hc
    constructor
    · constructor
      · intro hfn
        rw [hfn] at h
        exact (setBoolField_ok_none_iff asg k).mp h
      · intro hln
        have h2 : setBoolField asg k = .ok none := (setBoolField_ok_none_iff asg k).mpr hln
        rw [h2] at h
        exact (Except.ok.inj h).symm
    · intro b hfb
      rw [hfb] at h
      exact setBoolField_ok_some asg k b h
  · intro v hv ht hf
    have hbad : parseBool v = .error (.invalidBoolean v) := parseBool_bad v ht hf
    obtain ⟨k2, v2, p1, p2, p3, p4⟩ := mkSigningConf_err asg dom k v hk hv hbad
    exact ⟨k2, v2, p1, p2, p3, by rw [hsig]; exact p4⟩

/-- C3: for every optional-boolean key of the two parse operations, the
resulting field is unset exactly when the key never appeared; a key
present with a value whose lower-casing is `true`/`false` sets the
field to that boolean (so presence with `false` is set-to-false, never
absence — first conjunct characterises the coercion); and a key present
with any other value makes the whole call return a coercion error
carrying an offending key and its raw value, with no config returned. -/
theorem c3_optional_booleans (s : String) (asg : AssignMap) (dom : DomainMap)
    (hp : parseRspamdConfig s = .ok (asg, dom)) :
    (∀ (v : String) (b : Bool), parseBool v = .ok b ↔
      ((lowerString v = "true" ∧ b = true) ∨ (lowerString v = "false" ∧ b = false))) ∧
    (∀ p ∈ signingBoolFields, BoolFieldOK s asg p.1 p.2) ∧
    ((∀ conf, ParseDKIMConf s = .ok conf →
      ((conf.Enabled = none ↔ lookupA asg "enabled" = none) ∧
       (∀ b, conf.Enabled = some b →
         ∃ v, lookupA asg "enabled" = some v ∧ parseBool v = .ok b))) ∧
     (∀ v, lookupA asg "enabled" = some v → lowerString v ≠ "true" →
       lowerString v ≠ "false" →
       ParseDKIMConf s = .error (.parseKey "enabled" (.invalidBoolean v)))) := by
  have hsig : ParseDKIMSigningConf s = mkSigningConf asg dom := by
    unfold ParseDKIMSigningConf
    rw [hp]
  have hmod : ParseDKIMConf s = mkDKIMConf asg := by
    unfold ParseDKIMConf
    rw [hp]
  refine ⟨parseBool_ok_iff, ?_, ?_, ?_⟩
  · intro p hmem
    simp only [signingBoolFields, List.mem_cons, List.not_mem_nil, or_false] at hmem
    rcases hmem with rfl | rfl | rfl | rfl | rfl | rfl | rfl | rfl <;>
      exact boolFieldOK_of s asg dom hsig _ _ (by decide)
        (fun conf hc => by
          obtain ⟨q1, q2, q3, q4, q5, q6, q7, q8⟩ := mkSigningConf_ok_inv asg dom conf hc
          first
          | exact q1
          | exact q2
          | exact q3
          | exact q4
          | exact q5
          | exact q6
          | exact q7
          | exact q8)
  · intro conf hc
    rw [hmod] at hc
    exact mkDKIMConf_enabled_inv asg conf hc
  · intro v hv ht hf
    rw [hmod]
    exact mkDKIMConf_enabled_err asg v hv (parseBool_bad v ht hf)

/-- C3 witness: the key `sign_local` present with value `TRUE` on a
concrete input. -/
theorem c3_optional_booleans_witness :
    BoolFieldOK "sign_local = TRUE" [("sign_local", "TRUE")] "sign_local"
      DKIMSigningConf.SignLocal :=
  (c3_optional_booleans "sign_local = TRUE" [("sign_local", "TRUE")] []
      (by decide)).2.1 ("sign_local", DKIMSigningConf.SignLocal) (by simp [signingBoolFields])

/-! ## C6: optional trailing semicolons -/

/-- A non-empty string whose characters form one identifier token. -/
def validIdent (s : String) : Bool :=
  match s.data with
  | [] => false
  | c :: t => isIdentStart c && t.all isIdentPart

theorem parseRspamdLoop_eof_none (f : Nat) (asg : AssignMap) (dom : DomainMap) :
    parseRspamdLoop (f + 1) ⟨[], none⟩ asg dom = .ok (asg, dom) := by
  simp [parseRspamdLoop, next, nextRaw, stripWs]

theorem parseRspamdLoop_eof_back (f : Nat) (l : List Char) (asg : AssignMap)
    (dom : DomainMap) :
    parseRspamdLoop (f + 1) ⟨l, some ⟨.eof, ""⟩⟩ asg dom = .ok (asg, dom) := by
  simp [parseRspamdLoop, next]

theorem validIdent_inv (s : String) (h : validIdent s = true) :
    ∃ c cs, s.data = c :: cs ∧ isIdentStart c = true ∧ ∀ x ∈ cs, isIdentPart x = true := by
  unfold validIdent at h
  cases hd : s.data with
  | nil => rw [hd] at h; cases h
  | cons c cs =>
    rw [hd] at h
    simp only [Bool.and_eq_true, List.all_eq_true, decide_eq_true_eq] at h
    exact ⟨c, cs, rfl, h.1, h.2⟩

/-- Running the top-level loop over a single assignment `key = val`
with an optional trailing semicolon: the assignment is recorded and the
loop terminates at end of input. -/
theorem parse_one_assignment (key val : String) (f : Nat) (hk : validIdent key = true)
    (hkd : key ≠ "domain") (hv : validIdent val = true) (asg : AssignMap) (dom : DomainMap) :
    parseRspamdLoop (f + 1 + 1) ⟨key.data ++ ' ' :: '=' :: ' ' :: (val.data ++ [';']), none⟩
        asg dom = .ok (insertA asg key val, dom) ∧
    parseRspamdLoop (f + 1 + 1) ⟨key.data ++ ' ' :: '=' :: ' ' :: val.data, none⟩
        asg dom = .ok (insertA asg key val, dom) := by
  obtain ⟨c, cs, hkd2, hc, hcs⟩ := validIdent_inv key hk
  obtain ⟨d, ds, hvd2, hd, hds⟩ := validIdent_inv val hv
  have hmkkey : String.mk (c :: cs) = key := by rw [← hkd2]
  have hmkval : String.mk (d :: ds) = val := by rw [← hvd2]
  constructor
  · have h1 : nextRaw (key.data ++ ' ' :: '=' :: ' ' :: (val.data ++ [';'])) =
        (.ok ⟨.ident, key⟩, ' ' :: '=' :: ' ' :: (val.data ++ [';'])) := by
      rw [hkd2, List.cons_append, ← hmkkey]
      exact nextRaw_ident c cs _ hc hcs (by intro x hx; simp at hx; subst hx; decide)
    have h2 : nextRaw (' ' :: '=' :: ' ' :: (val.data ++ [';'])) =
        (.ok ⟨.equal, ""⟩, ' ' :: (val.data ++ [';'])) := by
      rw [nextRaw_space ' ' _ (by decide) (by decide), nextRaw_equal]
    have h3 : nextRaw (' ' :: (val.data ++ [';'])) = (.ok ⟨.ident, val⟩, [';']) := by
      rw [nextRaw_space ' ' _ (by decide) (by decide), hvd2, List.cons_append, ← hmkval]
      exact nextRaw_ident d ds _ hd hds (by intro x hx; simp at hx; subst hx; decide)
    have h4 : nextRaw [';'] = (.ok ⟨.semi, ""⟩, ([] : List Char)) := nextRaw_semi []
    simp [parseRspamdLoop, next, expect, parseValue, tryConsume, unread, h1, h2, h3, h4,
      hkd, nextRaw_nil]
  · have h1 : nextRaw (key.data ++ ' ' :: '=' :: ' ' :: val.data) =
        (.ok ⟨.ident, key⟩, ' ' :: '=' :: ' ' :: val.data) := by
      rw [hkd2, List.cons_append, ← hmkkey]
      exact nextRaw_ident c cs _ hc hcs (by intro x hx; simp at hx; subst hx; decide)
    have h2 : nextRaw (' ' :: '=' :: ' ' :: val.data) =
        (.ok ⟨.equal, ""⟩, ' ' :: val.data) := by
      rw [nextRaw_space ' ' _ (by decide) (by decide), nextRaw_equal]
    have h3 : nextRaw (' ' :: val.data) = (.ok ⟨.ident, val⟩, []) := by
      rw [nextRaw_space ' ' _ (by decide) (by decide), hvd2]
      have := nextRaw_ident d ds [] hd hds (by simp)
      simpa [← hmkval] using this
    simp [parseRspamdLoop, next, expect, parseValue, tryConsume, unread, h1, h2, h3,
      hkd, nextRaw_nil]

/-- C6: for all identifier keys and values, `key = val;` and `key = val`
parse to the same (successful) result, for the generic parser and both
typed projections; likewise a domain block with and without a trailing
semicolon.  The absence of the semicolon never causes a failure. -/
theorem c6_trailing_semicolon_optional (key val : String) (hk : validIdent key = true)
    (hkd : key ≠ "domain") (hv : validIdent val = true) :
    parseRspamdConfig (key ++ " = " ++ val ++ ";") = .ok ([(key, val)], []) ∧
    parseRspamdConfig (key ++ " = " ++ val) = .ok ([(key, val)], []) ∧
    ParseDKIMConf (key ++ " = " ++ val ++ ";") = ParseDKIMConf (key ++ " = " ++ val) ∧
    ParseDKIMSigningConf (key ++ " = " ++ val ++ ";") =
      ParseDKIMSigningConf (key ++ " = " ++ val) ∧
    ParseDKIMSigningConf "domain \x7b \"a.com\" \x7b selector = s1 \x7d \x7d;" =
      ParseDKIMSigningConf "domain \x7b \"a.com\" \x7b selector = s1 \x7d \x7d" := by
  have hdata1 : (key ++ " = " ++ val ++ ";").data =
      key.data ++ ' ' :: '=' :: ' ' :: (val.data ++ [';']) := by
    simp [String.data_append]
  have hdata2 : (key ++ " = " ++ val).data = key.data ++ ' ' :: '=' :: ' ' :: val.data := by
    simp [String.data_append]
  have hlen1 : (key ++ " = " ++ val ++ ";").length + 1 =
      (key.length + val.length + 3) + 1 + 1 := by
    have e1 : (" = " : String).length = 3 := by decide
    have e2 : (";" : String).length = 1 := by decide
    simp [String.length_append, e1, e2]
    omega
  have hlen2 : (key ++ " = " ++ val).length + 1 =
      (key.length + val.length + 2) + 1 + 1 := by
    have e1 : (" = " : String).length = 3 := by decide
    simp [String.length_append, e1]
    omega
  have hrun := parse_one_assignment key val (key.length + val.length + 3) hk hkd hv [] []
  have hrun2 := parse_one_assignment key val (key.length + val.length + 2) hk hkd hv [] []
  have e1 : parseRspamdConfig (key ++ " = " ++ val ++ ";") = .ok ([(key, val)], []) := by
    unfold parseRspamdConfig
    rw [hdata1, hlen1]
    exact hrun.1
  have e2 : parseRspamdConfig (key ++ " = " ++ val) = .ok ([(key, val)], []) := by
    unfold parseRspamdConfig
    rw [hdata2, hlen2]
    exact hrun2.2
  refine ⟨e1, e2, ?_, ?_, by decide⟩
  · unfold ParseDKIMConf
    rw [e1, e2]
  · unfold ParseDKIMSigningConf
    rw [e1, e2]

/-- C6 witness: the equivalence at the concrete key `a` and value `b`. -/
theorem c6_trailing_semicolon_optional_witness :
    parseRspamdConfig ("a" ++ " = " ++ "b" ++ ";") = .ok ([("a", "b")], []) ∧
    parseRspamdConfig ("a" ++ " = " ++ "b") = .ok ([("a", "b")], []) ∧
    ParseDKIMConf ("a" ++ " = " ++ "b" ++ ";") = ParseDKIMConf ("a" ++ " = " ++ "b") ∧
    ParseDKIMSigningConf ("a" ++ " = " ++ "b" ++ ";") =
      ParseDKIMSigningConf ("a" ++ " = " ++ "b") ∧
    ParseDKIMSigningConf "domain \x7b \"a.com\" \x7b selector = s1 \x7d \x7d;" =
      ParseDKIMSigningConf "domain \x7b \"a.com\" \x7b selector = s1 \x7d \x7d" :=
  c6_trailing_semicolon_optional "a" "b" (by decide) (by decide) (by decide)

/-! ## Fuel monotonicity: a run that does not exhaust its fuel is
unchanged by additional fuel. -/

theorem parseRule_mono (f : Nat) :
    ∀ (g : Nat), f ≤ g → ∀ st rule, parseRule f st rule ≠ .error .outOfFuel →
      parseRule g st rule = parseRule f st rule := by
  induction f with
  | zero => intro g hg st rule hne; exact absurd rfl hne
  | succ f ih =>
    intro g hg st rule hne
    obtain ⟨g', rfl⟩ : ∃ g', g = g' + 1 := ⟨g - 1, by omega⟩
    have hfg : f ≤ g' := by omega
    cases hn : next st with
    | mk res st1 =>
      cases res with
      | error e => simp [parseRule, hn]
      | ok t =>
        by_cases hrb : t.typ = TokType.rbrace
        · simp [parseRule, hn, hrb]
        · by_cases hid : t.typ = TokType.ident
          · cases hex : expect st1 .equal with
            | error e => simp [parseRule, hn, hrb, hid, hex]
            | ok st2 =>
              cases hv : parseValue st2 with
              | error e => simp [parseRule, hn, hrb, hid, hex, hv]
              | ok p =>
                obtain ⟨v, st3⟩ := p
                simp only [parseRule, hn, hrb, hid, hex, hv, if_false, if_true,
                  ite_false, ite_true] at hne ⊢
                exact ih g' hfg _ _ hne
          · simp [parseRule, hn, hrb, hid]

theorem parseDomainEntries_mono (f : Nat) :
    ∀ (g : Nat), f ≤ g → ∀ st domains,
      parseDomainEntries f st domains ≠ .error .outOfFuel →
      parseDomainEntries g st domains = parseDomainEntries f st domains := by
  induction f with
  | zero => intro g hg st domains hne; exact absurd rfl hne
  | succ f ih =>
    intro g hg st domains hne
    obtain ⟨g', rfl⟩ : ∃ g', g = g' + 1 := ⟨g - 1, by omega⟩
    have hfg : f ≤ g' := by omega
    cases hn : next st with
    | mk res st1 =>
      cases res with
      | error e => simp [parseDomainEntries, hn]
      | ok t =>
        by_cases hrb : t.typ = TokType.rbrace
        · simp [parseDomainEntries, hn, hrb]
        · by_cases hios : t.typ = TokType.ident ∨ t.typ = TokType.str
          · cases hex : expect st1 .lbrace with
            | error e => simp [parseDomainEntries, hn, hrb, hios, hex]
            | ok st2 =>
              simp only [parseDomainEntries, hn, hrb, hios, hex, if_false, if_true,
                ite_false, ite_true] at hne ⊢
              have hprne : parseRule f st2 [] ≠ .error .outOfFuel := by
                intro hoo
                rw [hoo] at hne
                exact hne rfl
              rw [parseRule_mono f g' hfg st2 [] hprne]
              cases hpr : parseRule f st2 [] with
              | error e => rfl
              | ok p =>
                obtain ⟨rule, st3⟩ := p
                rw [hpr] at hne
                exact ih g' hfg _ _ hne
          · simp [parseDomainEntries, hn, hrb, hios]

theorem parseDomainBlock_mono (f g : Nat) (hfg : f ≤ g) (st : LexState) (domains : DomainMap)
    (hne : parseDomainBlock f st domains ≠ .error .outOfFuel) :
    parseDomainBlock g st domains = parseDomainBlock f st domains := by
  cases hex : expect st .lbrace with
  | error e => simp [parseDomainBlock, hex]
  | ok st1 =>
    simp only [parseDomainBlock, hex] at hne ⊢
    exact parseDomainEntries_mono f g hfg st1 domains hne

theorem parseRspamdLoop_mono (f : Nat) :
    ∀ (g : Nat), f ≤ g → ∀ st asg dom,
      parseRspamdLoop f st asg dom ≠ .error .outOfFuel →
      parseRspamdLoop g st asg dom = parseRspamdLoop f st asg dom := by
  induction f with
  | zero => intro g hg st asg dom hne; exact absurd rfl hne
  | succ f ih =>
    intro g hg st asg dom hne
    obtain ⟨g', rfl⟩ : ∃ g', g = g' + 1 := ⟨g - 1, by omega⟩
    have hfg : f ≤ g' := by omega
    cases hn : next st with
    | mk res st1 =>
      cases res with
      | error e => simp [parseRspamdLoop, hn]
      | ok t =>
        by_cases heof : t.typ = TokType.eof
        · simp [parseRspamdLoop, hn, heof]
        · by_cases hid : t.typ = TokType.ident
          · by_cases hdm : t.val = "domain"
            · simp only [parseRspamdLoop, hn, heof, hid, hdm, if_false, if_true,
                ite_false, ite_true] at hne ⊢
              have hbne : parseDomainBlock f st1 dom ≠ .error .outOfFuel := by
                intro hoo
                rw [hoo] at hne
                exact hne rfl
              rw [parseDomainBlock_mono f g' hfg st1 dom hbne]
              cases hb : parseDomainBlock f st1 dom with
              | error e => rfl
              | ok p =>
                obtain ⟨dom', st2⟩ := p
                rw [hb] at hne
                exact ih g' hfg _ _ _ hne
            · cases hex : expect st1 .equal with
              | error e => simp [parseRspamdLoop, hn, heof, hid, hdm, hex]
              | ok st2 =>
                cases hv : parseValue st2 with
                | error e => simp [parseRspamdLoop, hn, heof, hid, hdm, hex, hv]
                | ok p =>
                  obtain ⟨v, st3⟩ := p
                  simp only [parseRspamdLoop, hn, heof, hid, hdm, hex, hv, if_false,
                    if_true, ite_false, ite_true] at hne ⊢
                  exact ih g' hfg _ _ _ hne
          · simp [parseRspamdLoop, hn, heof, hid]

/-! ## Domain-map irrelevance: the accumulated domain map influences
neither the control flow nor the assignment result of the parser. -/

theorem parseDomainEntries_domShift (f : Nat) :
    ∀ (st : LexState) (d1 d2 : DomainMap),
      (∃ e, parseDomainEntries f st d1 = .error e ∧ parseDomainEntries f st d2 = .error e) ∨
      (∃ r1 r2 st', parseDomainEntries f st d1 = .ok (r1, st') ∧
        parseDomainEntries f st d2 = .ok (r2, st')) := by
  induction f with
  | zero => intro st d1 d2; exact .inl ⟨.outOfFuel, rfl, rfl⟩
  | succ f ih =>
    intro st d1 d2
    cases hn : next st with
    | mk res st1 =>
      cases res with
      | error e => exact .inl ⟨e, by simp [parseDomainEntries, hn], by
          simp [parseDomainEntries, hn]⟩
      | ok t =>
        by_cases hrb : t.typ = TokType.rbrace
        · exact .inr ⟨d1, d2, (tryConsume st1 .semi).2,
            by simp [parseDomainEntries, hn, hrb], by simp [parseDomainEntries, hn, hrb]⟩
        · by_cases hios : t.typ = TokType.ident ∨ t.typ = TokType.str
          · cases hex : expect st1 .lbrace with
            | error e =>
              exact .inl ⟨e, by simp [parseDomainEntries, hn, hrb, hios, hex],
                by simp [parseDomainEntries, hn, hrb, hios, hex]⟩
            | ok st2 =>
              cases hpr : parseRule f st2 [] with
              | error e =>
                exact .inl ⟨e, by simp [parseDomainEntries, hn, hrb, hios, hex, hpr],
                  by simp [parseDomainEntries, hn, hrb, hios, hex, hpr]⟩
              | ok p =>
                obtain ⟨rule, st3⟩ := p
                rcases ih st3 (insertA d1 t.val rule) (insertA d2 t.val rule) with
                  ⟨e, he1, he2⟩ | ⟨r1, r2, st', h1, h2⟩
                · exact .inl ⟨e,
                    by simp [parseDomainEntries, hn, hrb, hios, hex, hpr, he1],
                    by simp [parseDomainEntries, hn, hrb, hios, hex, hpr, he2]⟩
                · exact .inr ⟨r1, r2, st',
                    by simp [parseDomainEntries, hn, hrb, hios, hex, hpr, h1],
                    by simp [parseDomainEntries, hn, hrb, hios, hex, hpr, h2]⟩
          · exact .inl ⟨.unexpectedTokenInDomainBlock t.typ,
              by simp [parseDomainEntries, hn, hrb, hios],
              by simp [parseDomainEntries, hn, hrb, hios]⟩

theorem parseDomainBlock_domShift (f : Nat) (st : LexState) (d1 d2 : DomainMap) :
    (∃ e, parseDomainBlock f st d1 = .error e ∧ parseDomainBlock f st d2 = .error e) ∨
    (∃ r1 r2 st', parseDomainBlock f st d1 = .ok (r1, st') ∧
      parseDomainBlock f st d2 = .ok (r2, st')) := by
  cases hex : expect st .lbrace with
  | error e => exact .inl ⟨e, by simp [parseDomainBlock, hex], by simp [parseDomainBlock, hex]⟩
  | ok st1 =>
    rcases parseDomainEntries_domShift f st1 d1 d2 with ⟨e, he1, he2⟩ | ⟨r1, r2, st', h1, h2⟩
    · exact .inl ⟨e, by simp [parseDomainBlock, hex, he1], by simp [parseDomainBlock, hex, he2]⟩
    · exact .inr ⟨r1, r2, st', by simp [parseDomainBlock, hex, h1],
        by simp [parseDomainBlock, hex, h2]⟩

theorem parseRspamdLoop_domShift (f : Nat) :
    ∀ (st : LexState) (asg : AssignMap) (d1 d2 : DomainMap),
      (∃ e, parseRspamdLoop f st asg d1 = .error e ∧
        parseRspamdLoop f st asg d2 = .error e) ∨
      (∃ a da db, parseRspamdLoop f st asg d1 = .ok (a, da) ∧
        parseRspamdLoop f st asg d2 = .ok (a, db)) := by
  induction f with
  | zero => intro st asg d1 d2; exact .inl ⟨.outOfFuel, rfl, rfl⟩
  | succ f ih =>
    intro st asg d1 d2
    cases hn : next st with
    | mk res st1 =>
      cases res with
      | error e =>
        exact .inl ⟨e, by simp [parseRspamdLoop, hn], by simp [parseRspamdLoop, hn]⟩
      | ok t =>
        by_cases heof : t.typ = TokType.eof
        · exact .inr ⟨asg, d1, d2, by simp [parseRspamdLoop, hn, heof],
            by simp [parseRspamdLoop, hn, heof]⟩
        · by_cases hid : t.typ = TokType.ident
          · by_cases hdm : t.val = "domain"
            · rcases parseDomainBlock_domShift f st1 d1 d2 with
                ⟨e, he1, he2⟩ | ⟨r1, r2, st', h1, h2⟩
              · exact .inl ⟨e, by simp [parseRspamdLoop, hn, heof, hid, hdm, he1],
                  by simp [parseRspamdLoop, hn, heof, hid, hdm, he2]⟩
              · rcases ih st' asg r1 r2 with ⟨e, he1, he2⟩ | ⟨a, da, db, hh1, hh2⟩
                · exact .inl ⟨e,
                    by simp [parseRspamdLoop, hn, heof, hid, hdm, h1, he1],
                    by simp [parseRspamdLoop, hn, heof, hid, hdm, h2, he2]⟩
                · exact .inr ⟨a, da, db,
                    by simp [parseRspamdLoop, hn, heof, hid, hdm, h1, hh1],
                    by simp [parseRspamdLoop, hn, heof, hid, hdm, h2, hh2]⟩
            · cases hex : expect st1 .equal with
              | error e =>
                exact .inl ⟨e, by simp [parseRspamdLoop, hn, heof, hid, hdm, hex],
                  by simp [parseRspamdLoop, hn, heof, hid, hdm, hex]⟩
              | ok st2 =>
                cases hv : parseValue st2 with
                | error e =>
                  exact .inl ⟨e, by simp [parseRspamdLoop, hn, heof, hid, hdm, hex, hv],
                    by simp [parseRspamdLoop, hn, heof, hid, hdm, hex, hv]⟩
                | ok p =>
                  obtain ⟨v, st3⟩ := p
                  rcases ih (tryConsume st3 .semi).2 (insertA asg t.val v) d1 d2 with
                    ⟨e, he1, he2⟩ | ⟨a, da, db, hh1, hh2⟩
                  · exact .inl ⟨e,
                      by simp [parseRspamdLoop, hn, heof, hid, hdm, hex, hv, he1],
                      by simp [parseRspamdLoop, hn, heof, hid, hdm, hex, hv, he2]⟩
                  · exact .inr ⟨a, da, db,
                      by simp [parseRspamdLoop, hn, heof, hid, hdm, hex, hv, hh1],
                      by simp [parseRspamdLoop, hn, heof, hid, hdm, hex, hv, hh2]⟩
          · exact .inl ⟨.unexpectedToken t.typ,
              by simp [parseRspamdLoop, hn, heof, hid],
              by simp [parseRspamdLoop, hn, heof, hid]⟩

/-! ## C10: `ParseDKIMConf` silently discards domain blocks -/

theorem nextRaw_newline (l : List Char) : nextRaw ('\n' :: l) = nextRaw l :=
  nextRaw_space '\n' l (by decide) (by decide)

theorem parseRspamdLoop_cons_nl (f : Nat) (l : List Char) (asg : AssignMap)
    (dom : DomainMap) :
    parseRspamdLoop f ⟨'\n' :: l, none⟩ asg dom = parseRspamdLoop f ⟨l, none⟩ asg dom := by
  cases f with
  | zero => rfl
  | succ f =>
    simp only [parseRspamdLoop, next]
    rw [nextRaw_newline]

/-- Running the domain-block parser over the concrete block body
`{ "d.com" { selector = s1 } };` followed by a newline and an arbitrary
remainder: the block is recorded and the trailing semicolon consumed. -/
theorem parse_block_entries (f : Nat) (l : List Char) (dom : DomainMap) :
    parseDomainBlock (f + 1 + 1 + 1) ⟨' ' :: '{' :: ' ' :: '"' :: 'd' :: '.' :: 'c' :: 'o' :: 'm' :: '"' :: ' ' :: '{' :: ' ' :: 's' :: 'e' :: 'l' :: 'e' :: 'c' :: 't' :: 'o' :: 'r' :: ' ' :: '=' :: ' ' :: 's' :: '1' :: ' ' :: '}' :: ' ' :: '}' :: ';' :: '\n' :: l, none⟩ dom =
      .ok (insertA dom "d.com" [("selector", "s1")], ⟨'\n' :: l, none⟩) := by
  have h2 : nextRaw (' ' :: '{' :: ' ' :: '"' :: 'd' :: '.' :: 'c' :: 'o' :: 'm' :: '"' :: ' ' :: '{' :: ' ' :: 's' :: 'e' :: 'l' :: 'e' :: 'c' :: 't' :: 'o' :: 'r' :: ' ' :: '=' :: ' ' :: 's' :: '1' :: ' ' :: '}' :: ' ' :: '}' :: ';' :: '\n' :: l) = (.ok ⟨.lbrace, ""⟩, ' ' :: '"' :: 'd' :: '.' :: 'c' :: 'o' :: 'm' :: '"' :: ' ' :: '{' :: ' ' :: 's' :: 'e' :: 'l' :: 'e' :: 'c' :: 't' :: 'o' :: 'r' :: ' ' :: '=' :: ' ' :: 's' :: '1' :: ' ' :: '}' :: ' ' :: '}' :: ';' :: '\n' :: l) := by
    rw [nextRaw_space ' ' _ (by decide) (by decide), nextRaw_lbrace]
  have h3 : nextRaw (' ' :: '"' :: 'd' :: '.' :: 'c' :: 'o' :: 'm' :: '"' :: ' ' :: '{' :: ' ' :: 's' :: 'e' :: 'l' :: 'e' :: 'c' :: 't' :: 'o' :: 'r' :: ' ' :: '=' :: ' ' :: 's' :: '1' :: ' ' :: '}' :: ' ' :: '}' :: ';' :: '\n' :: l) = (.ok ⟨.str, "d.com"⟩, ' ' :: '{' :: ' ' :: 's' :: 'e' :: 'l' :: 'e' :: 'c' :: 't' :: 'o' :: 'r' :: ' ' :: '=' :: ' ' :: 's' :: '1' :: ' ' :: '}' :: ' ' :: '}' :: ';' :: '\n' :: l) := by
    have hrs : readString ('d' :: '.' :: 'c' :: 'o' :: 'm' :: '"' :: ' ' :: '{' :: ' ' :: 's' :: 'e' :: 'l' :: 'e' :: 'c' :: 't' :: 'o' :: 'r' :: ' ' :: '=' :: ' ' :: 's' :: '1' :: ' ' :: '}' :: ' ' :: '}' :: ';' :: '\n' :: l) =
        (.ok ['d', '.', 'c', 'o', 'm'], ' ' :: '{' :: ' ' :: 's' :: 'e' :: 'l' :: 'e' :: 'c' :: 't' :: 'o' :: 'r' :: ' ' :: '=' :: ' ' :: 's' :: '1' :: ' ' :: '}' :: ' ' :: '}' :: ';' :: '\n' :: l) :=
      readString_verbatim ['d', '.', 'c', 'o', 'm'] (' ' :: '{' :: ' ' :: 's' :: 'e' :: 'l' :: 'e' :: 'c' :: 't' :: 'o' :: 'r' :: ' ' :: '=' :: ' ' :: 's' :: '1' :: ' ' :: '}' :: ' ' :: '}' :: ';' :: '\n' :: l) (by decide)
    rw [nextRaw_space ' ' _ (by decide) (by decide), nextRaw_quote, hrs]
  have h4 : nextRaw (' ' :: '{' :: ' ' :: 's' :: 'e' :: 'l' :: 'e' :: 'c' :: 't' :: 'o' :: 'r' :: ' ' :: '=' :: ' ' :: 's' :: '1' :: ' ' :: '}' :: ' ' :: '}' :: ';' :: '\n' :: l) = (.ok ⟨.lbrace, ""⟩, ' ' :: 's' :: 'e' :: 'l' :: 'e' :: 'c' :: 't' :: 'o' :: 'r' :: ' ' :: '=' :: ' ' :: 's' :: '1' :: ' ' :: '}' :: ' ' :: '}' :: ';' :: '\n' :: l) := by
    rw [nextRaw_space ' ' _ (by decide) (by decide), nextRaw_lbrace]
  have h5 : nextRaw (' ' :: 's' :: 'e' :: 'l' :: 'e' :: 'c' :: 't' :: 'o' :: 'r' :: ' ' :: '=' :: ' ' :: 's' :: '1' :: ' ' :: '}' :: ' ' :: '}' :: ';' :: '\n' :: l) = (.ok ⟨.ident, "selector"⟩, ' ' :: '=' :: ' ' :: 's' :: '1' :: ' ' :: '}' :: ' ' :: '}' :: ';' :: '\n' :: l) := by
    rw [nextRaw_space ' ' _ (by decide) (by decide)]
    exact nextRaw_ident 's' ['e', 'l', 'e', 'c', 't', 'o', 'r'] (' ' :: '=' :: ' ' :: 's' :: '1' :: ' ' :: '}' :: ' ' :: '}' :: ';' :: '\n' :: l) (by decide)
      (by decide) (by intro x hx; simp at hx; subst hx; decide)
  have h6 : nextRaw (' ' :: '=' :: ' ' :: 's' :: '1' :: ' ' :: '}' :: ' ' :: '}' :: ';' :: '\n' :: l) = (.ok ⟨.equal, ""⟩, ' ' :: 's' :: '1' :: ' ' :: '}' :: ' ' :: '}' :: ';' :: '\n' :: l) := by
    rw [nextRaw_space ' ' _ (by decide) (by decide), nextRaw_equal]
  have h7 : nextRaw (' ' :: 's' :: '1' :: ' ' :: '}' :: ' ' :: '}' :: ';' :: '\n' :: l) = (.ok ⟨.ident, "s1"⟩, ' ' :: '}' :: ' ' :: '}' :: ';' :: '\n' :: l) := by
    rw [nextRaw_space ' ' _ (by decide) (by decide)]
    exact nextRaw_ident 's' ['1'] (' ' :: '}' :: ' ' :: '}' :: ';' :: '\n' :: l) (by decide) (by decide)
      (by intro x hx; simp at hx; subst hx; decide)
  have h8 : nextRaw (' ' :: '}' :: ' ' :: '}' :: ';' :: '\n' :: l) = (.ok ⟨.rbrace, ""⟩, ' ' :: '}' :: ';' :: '\n' :: l) := by
    rw [nextRaw_space ' ' _ (by decide) (by decide), nextRaw_rbrace]
  have h9 : nextRaw (' ' :: '}' :: ';' :: '\n' :: l) = (.ok ⟨.rbrace, ""⟩, ';' :: '\n' :: l) := by
    rw [nextRaw_space ' ' _ (by decide) (by decide), nextRaw_rbrace]
  have h10 : nextRaw (';' :: '\n' :: l) = (.ok ⟨.semi, ""⟩, '\n' :: l) := nextRaw_semi _
  simp [parseDomainBlock, parseDomainEntries, parseRule, next, expect, parseValue,
    tryConsume, unread, insertA, h2, h3, h4, h5, h6, h7, h8, h9, h10]

/-- Consuming the whole concrete `domain` block (with trailing semicolon
and newline) from the front of the input: the top-level loop continues
on the remainder with the block added to the domain map and the
assignment accumulator untouched. -/
theorem parse_block_prefix (f : Nat) (l : List Char) (asg : AssignMap) (dom : DomainMap) :
    parseRspamdLoop (f + 1 + 1 + 1 + 1) ⟨'d' :: 'o' :: 'm' :: 'a' :: 'i' :: 'n' :: ' ' :: '{' :: ' ' :: '"' :: 'd' :: '.' :: 'c' :: 'o' :: 'm' :: '"' :: ' ' :: '{' :: ' ' :: 's' :: 'e' :: 'l' :: 'e' :: 'c' :: 't' :: 'o' :: 'r' :: ' ' :: '=' :: ' ' :: 's' :: '1' :: ' ' :: '}' :: ' ' :: '}' :: ';' :: '\n' :: l, none⟩ asg dom =
      parseRspamdLoop (f + 1 + 1 + 1) ⟨l, none⟩ asg
        (insertA dom "d.com" [("selector", "s1")]) := by
  have h1 : nextRaw ('d' :: 'o' :: 'm' :: 'a' :: 'i' :: 'n' :: ' ' :: '{' :: ' ' :: '"' :: 'd' :: '.' :: 'c' :: 'o' :: 'm' :: '"' :: ' ' :: '{' :: ' ' :: 's' :: 'e' :: 'l' :: 'e' :: 'c' :: 't' :: 'o' :: 'r' :: ' ' :: '=' :: ' ' :: 's' :: '1' :: ' ' :: '}' :: ' ' :: '}' :: ';' :: '\n' :: l) = (.ok ⟨.ident, "domain"⟩, ' ' :: '{' :: ' ' :: '"' :: 'd' :: '.' :: 'c' :: 'o' :: 'm' :: '"' :: ' ' :: '{' :: ' ' :: 's' :: 'e' :: 'l' :: 'e' :: 'c' :: 't' :: 'o' :: 'r' :: ' ' :: '=' :: ' ' :: 's' :: '1' :: ' ' :: '}' :: ' ' :: '}' :: ';' :: '\n' :: l) :=
    nextRaw_ident 'd' ['o', 'm', 'a', 'i', 'n'] (' ' :: '{' :: ' ' :: '"' :: 'd' :: '.' :: 'c' :: 'o' :: 'm' :: '"' :: ' ' :: '{' :: ' ' :: 's' :: 'e' :: 'l' :: 'e' :: 'c' :: 't' :: 'o' :: 'r' :: ' ' :: '=' :: ' ' :: 's' :: '1' :: ' ' :: '}' :: ' ' :: '}' :: ';' :: '\n' :: l) (by decide) (by decide)
      (by intro x hx; simp at hx; subst hx; decide)
  conv_lhs => rw [parseRspamdLoop.eq_2]
  simp [next, h1, parse_block_entries, parseRspamdLoop_cons_nl]

/-- C10: `ParseDKIMConf` accepts a well-formed `domain` block and
silently discards it — adding the block to any input whose generic parse
succeeds leaves the returned module config unchanged, because the
projection drops the generic parser's domain-map component (visible in
the definition of `ParseDKIMConf`, which discards the second component);
the generic result keeps the same assignment map. -/
theorem c10_domain_blocks_ignored (s : String) (asg : AssignMap) (dom : DomainMap)
    (hp : parseRspamdConfig s = .ok (asg, dom)) :
    ParseDKIMConf ("domain \x7b \"d.com\" \x7b selector = s1 \x7d \x7d;\n" ++ s) = ParseDKIMConf s ∧
    (∃ dom2, parseRspamdConfig ("domain \x7b \"d.com\" \x7b selector = s1 \x7d \x7d;\n" ++ s) =
      .ok (asg, dom2)) := by
  have hlen : ("domain \x7b \"d.com\" \x7b selector = s1 \x7d \x7d;\n" ++ s).length + 1 =
      s.length + 35 + 1 + 1 + 1 + 1 := by
    have e1 : ("domain \x7b \"d.com\" \x7b selector = s1 \x7d \x7d;\n" : String).length = 38 := by decide
    simp [String.length_append, e1]
    omega
  have hdata : ("domain \x7b \"d.com\" \x7b selector = s1 \x7d \x7d;\n" ++ s).data =
      'd' :: 'o' :: 'm' :: 'a' :: 'i' :: 'n' :: ' ' :: '{' :: ' ' :: '"' :: 'd' :: '.' :: 'c' :: 'o' :: 'm' :: '"' :: ' ' :: '{' :: ' ' :: 's' :: 'e' :: 'l' :: 'e' :: 'c' :: 't' :: 'o' :: 'r' :: ' ' :: '=' :: ' ' :: 's' :: '1' :: ' ' :: '}' :: ' ' :: '}' :: ';' :: '\n' :: s.data := by
    have e1 : ("domain \x7b \"d.com\" \x7b selector = s1 \x7d \x7d;\n" : String).data =
        ['d', 'o', 'm', 'a', 'i', 'n', ' ', '{', ' ', '"', 'd', '.', 'c', 'o', 'm', '"', ' ', '{', ' ', 's', 'e', 'l', 'e', 'c', 't', 'o', 'r', ' ', '=', ' ', 's', '1', ' ', '}', ' ', '}', ';', '\n'] := by decide
    simp [String.data_append, e1]
  have hp2 : parseRspamdLoop (s.length + 1) ⟨s.data, none⟩ [] [] = .ok (asg, dom) := hp
  rcases parseRspamdLoop_domShift (s.length + 1) ⟨s.data, none⟩ []
      [] [("d.com", [("selector", "s1")])] with ⟨e, he1, he2⟩ | ⟨a, da, db, hh1, hh2⟩
  · rw [hp2] at he1
    cases he1
  · rw [hp2] at hh1
    have hinj := Except.ok.inj hh1
    rw [Prod.mk.injEq] at hinj
    obtain ⟨h1a, h1b⟩ := hinj
    subst h1a
    subst h1b
    have hne : parseRspamdLoop (s.length + 1) ⟨s.data, none⟩ []
        [("d.com", [("selector", "s1")])] ≠ .error .outOfFuel := by
      rw [hh2]
      intro hx
      cases hx
    have hmono := parseRspamdLoop_mono (s.length + 1) (s.length + 35 + 1 + 1 + 1)
      (by omega) ⟨s.data, none⟩ [] [("d.com", [("selector", "s1")])] hne
    have hbig : parseRspamdConfig ("domain \x7b \"d.com\" \x7b selector = s1 \x7d \x7d;\n" ++ s) =
        .ok (asg, db) := by
      unfold parseRspamdConfig
      rw [hlen, hdata, parse_block_prefix (s.length + 35) s.data [] []]
      have hins : insertA ([] : DomainMap) "d.com" [("selector", "s1")] =
          [("d.com", [("selector", "s1")])] := rfl
      rw [hins, hmono]
      exact hh2
    refine ⟨?_, ⟨db, hbig⟩⟩
    unfold ParseDKIMConf
    rw [hbig, hp]

/-- C10 witness: adding the block in front of the input
`enabled = true`. -/
theorem c10_domain_blocks_ignored_witness :
    ParseDKIMConf ("domain \x7b \"d.com\" \x7b selector = s1 \x7d \x7d;\n" ++ "enabled = true") =
      ParseDKIMConf "enabled = true" ∧
    (∃ dom2, parseRspamdConfig ("domain \x7b \"d.com\" \x7b selector = s1 \x7d \x7d;\n" ++
      "enabled = true") = .ok ([("enabled", "true")], dom2)) :=
  c10_domain_blocks_ignored "enabled = true" [("enabled", "true")] [] (by decide)

end DkimConf
